import Mathlib

set_option maxRecDepth 2000

/-!
Verification development for the `cention-sany/mime` repository.

Bytes are modelled as `Nat` (values 0-255).  Strings handed to the Go
functions are modelled as `List Nat` of their bytes.  The three components
modelled here are:

* the straddle-aware quoted-printable `Reader` (package `quotedprintable`,
  `reader.go`): namespace `QP`;
* the UTF-8 rejoiner `qpUTF8` (`qputf8.go`): namespace `QPU`;
* the media-type parser/formatter (`mediatype.go`): namespace `MT`.
-/

namespace QP

/-- The error values that can arise inside the quoted-printable reader:
`bufio.ErrBufferFull`, `io.EOF`, `io.ErrUnexpectedEOF`, and the three
formatted errors produced by the decoder. -/
inductive QPErr where
  | bufferFull
  | eofErr
  | unexpectedEOF
  | invalidHex (b : Nat)
  | invalidAfterEq (bs : List Nat)
  | invalidUnescaped (b : Nat)
  deriving DecidableEq, Repr

/-- `RErr` from `reader.go`: an ordered, capped-at-4 list of recoverable
errors plus at most one unrecoverable error. -/
structure RErr where
  recs : List QPErr := []
  fatal : Option QPErr := none
  deriving DecidableEq, Repr

/-- `RErr.add`: record a recoverable error (ignored once 4 are stored).
The Go code also ignores `nil`; we only ever call it with a real error. -/
def RErr.add (g : RErr) (e : QPErr) : RErr :=
  if g.recs.length = 4 then g else { g with recs := g.recs ++ [e] }

/-- `RErr.addUnrecover`: record an unrecoverable error (no-op on `nil`). -/
def RErr.addUnrecover (g : RErr) (e : Option QPErr) : RErr :=
  match e with
  | none => g
  | some e => { g with fatal := some e }

/-- `RErr.getErr`: the fatal error if no recoverable one was stored,
else the first recoverable error. -/
def RErr.getErr (g : RErr) : Option QPErr :=
  match g.recs with
  | [] => g.fatal
  | e :: _ => some e

/-- State of the quoted-printable `Reader` (straddle-aware variant).
`src` models the bytes still unread inside the wrapped `bufio.Reader`;
`p0 p1 p2` are `prev[0..2]` (`prev[3]` is never touched since
`maxQPBuf = 3`); `last` is the window `prev[lastLo:lastHi]`. -/
structure Reader where
  strict : Bool
  src : List Nat
  line : List Nat := []
  p0 : Nat := 0
  p1 : Nat := 0
  p2 : Nat := 0
  lastLo : Nat := 0
  lastHi : Nat := 0
  gerr : RErr := {}
  rerr : Option QPErr := none
  deriving DecidableEq, Repr

def Reader.prevGet (st : Reader) (i : Nat) : Nat :=
  if i = 0 then st.p0 else if i = 1 then st.p1 else st.p2

def Reader.prevSet (st : Reader) (i v : Nat) : Reader :=
  if i = 0 then { st with p0 := v }
  else if i = 1 then { st with p1 := v }
  else { st with p2 := v }

def Reader.lastLen (st : Reader) : Nat := st.lastHi - st.lastLo

/-- The default `bufio.Reader` buffer size used by `bufio.NewReader`. -/
def bufioSize : Nat := 4096

/-- `bufio.Reader.ReadSlice('\n')` over a `strings.Reader`:
returns the line (including the delimiter when found), the read error
(`none`, `ErrBufferFull` or `io.EOF`), and the remaining source bytes. -/
def readSlice (src : List Nat) : List Nat × Option QPErr × List Nat :=
  if src.isEmpty then ([], some .eofErr, [])
  else
    match (src.take bufioSize).findIdx? (fun b => b == 10) with
    | some i => (src.take (i + 1), none, src.drop (i + 1))
    | none =>
      if bufioSize ≤ src.length then
        (src.take bufioSize, some .bufferFull, src.drop bufioSize)
      else (src, some .eofErr, [])

/-- `isQPDiscardWhitespace` from `reader.go`. -/
def isQPDiscardWhitespace (b : Nat) : Bool :=
  b == 10 || b == 13 || b == 32 || b == 9

/-- `bytes.TrimRightFunc(l, isQPDiscardWhitespace)` (the discard set is
pure ASCII, so the rune-wise Go loop agrees with this byte-wise trim). -/
def trimRightWS (l : List Nat) : List Nat :=
  (l.reverse.dropWhile isQPDiscardWhitespace).reverse

/-- `fromHex` from `reader.go` (lower-case hex accepted permissively). -/
def fromHex (b : Nat) : Option Nat :=
  if 48 ≤ b ∧ b ≤ 57 then some (b - 48)
  else if 65 ≤ b ∧ b ≤ 70 then some (b - 65 + 10)
  else if 97 ≤ b ∧ b ≤ 102 then some (b - 97 + 10)
  else none

/-- `readHexByte` from `reader.go`. -/
def readHexByte (v : List Nat) : Except QPErr Nat :=
  match v with
  | c1 :: c2 :: _ =>
    match fromHex c1 with
    | none => .error (.invalidHex c1)
    | some hb =>
      match fromHex c2 with
      | none => .error (.invalidHex c2)
      | some lb => .ok (hb * 16 + lb)
  | _ => .error .unexpectedEOF

/-- The line post-processing performed by `Reader.Read` right after
`ReadSlice`: right-trim whitespace, elide a soft line break (recording
`invalid bytes after =` when the stripped tail is not `\n`/`\r\n`-led),
otherwise re-append the original `\n` or `\r\n` terminator.
Returns the processed line and the soft-break error, if any. -/
def processLine (whole : List Nat) : List Nat × Option QPErr :=
  let hasLF := [10].isSuffixOf whole
  let hasCR := [13, 10].isSuffixOf whole
  let t := trimRightWS whole
  if t.getLast? = some 61 then
    let rightStripped := whole.drop t.length
    if [10].isPrefixOf rightStripped ∨ [13, 10].isPrefixOf rightStripped then
      (t.dropLast, none)
    else (t.dropLast, some (.invalidAfterEq rightStripped))
  else if hasLF then
    if hasCR then (t ++ [13, 10], none) else (t ++ [10], none)
  else (t, none)

/-- Result of one piece of the `Read` loop body: go back to the loop top,
emit one byte and go back to the top, or fall through to the next piece. -/
inductive StepRes where
  | toTop (st : Reader)
  | emit (b : Nat) (st : Reader)
  | fall (st : Reader)
  deriving Repr

/-- The `if len(r.last) > 0` fill in `Reader.Read`: pull bytes from the
current line into `prev` until `prev[:3]` is populated, decode the two
hex digits, and emit either the decoded byte or a literal `=`. -/
def lastFill (st : Reader) : StepRes :=
  let L := st.lastLen
  let st1 :=
    if L = 1 then
      { (st.prevSet 1 (st.line.headD 0)).prevSet 2 ((st.line.drop 1).headD 0) with
        line := st.line.drop 2, lastLo := 0, lastHi := 3 }
    else if L = 2 then
      { st.prevSet 2 (st.line.headD 0) with
        line := st.line.drop 1, lastLo := 0, lastHi := 3 }
    else { st with lastLo := 0, lastHi := 3 }
  match readHexByte [st1.p1, st1.p2] with
  | .ok v => .emit v { st1 with lastLo := 3 }
  | .error e => .emit 61 { st1 with gerr := st1.gerr.add e, lastLo := 1 }

/-- The whole `lastNum := len(r.last); if lastNum > 0 { ... }` block of
`Reader.Read` (only ever entered with a non-empty current line). -/
def lastBlock (st : Reader) : StepRes :=
  if st.lastLen = 0 then .fall st
  else
    let b := st.prevGet st.lastLo
    if b = 61 then
      if st.lastLen = 1 then
        if [10].isPrefixOf st.line then
          let st1 := { st with line := st.line.drop 1, lastLo := 0, lastHi := 0 }
          if st1.line.isEmpty then .toTop st1 else .fall st1
        else if [13, 10].isPrefixOf st.line then
          let st1 := { st with line := st.line.drop 2, lastLo := 0, lastHi := 0 }
          if st1.line.isEmpty then .toTop st1 else .fall st1
        else if st.line.length < 2 then
          .toTop { st.prevSet 1 (st.line.headD 0) with
                   line := [], lastLo := 0, lastHi := 2 }
        else lastFill st
      else lastFill st
    else .emit b { st with lastLo := st.lastLo + 1 }

/-- The per-byte line scan of `Reader.Read` (the `b := r.line[0]` switch). -/
def lineStep (st : Reader) : StepRes :=
  match st.line with
  | [] => .fall st
  | b :: rest =>
    if b = 61 then
      match readHexByte rest with
      | .ok v => .emit v { st with line := rest.drop 2 }
      | .error e =>
        if e = .unexpectedEOF ∧ st.rerr = some .bufferFull then
          if rest.isEmpty then
            .toTop { st.prevSet 0 b with line := [], lastLo := 0, lastHi := 1 }
          else
            .toTop { (st.prevSet 0 b).prevSet 1 (rest.headD 0) with
                     line := [], lastLo := 0, lastHi := 2 }
        else .emit 61 { st with gerr := st.gerr.add e, line := rest }
    else if b = 9 ∨ b = 13 ∨ b = 10 then .emit b { st with line := rest }
    else if b < 32 ∨ 126 < b then
      .emit b { st with gerr := st.gerr.add (.invalidUnescaped b), line := rest }
    else .emit b { st with line := rest }

/-- `Reader.Fn`: the strict selector returns `gerr.getErr()`, the lenient
selector returns only `gerr.err`. -/
def rfn (st : Reader) : Option QPErr :=
  if st.strict then st.gerr.getErr else st.gerr.fatal

/-- Auxiliary loop for `ejectLast`; the counter is an upper bound on the
number of iterations (each one advances `lastLo` towards `lastHi`). -/
def ejectLastAux : Nat → Reader → Nat → List Nat → Reader × List Nat
  | 0, st, _, acc => (st, acc)
  | k + 1, st, space, acc =>
    if st.lastLo < st.lastHi ∧ 0 < space then
      ejectLastAux k { st with lastLo := st.lastLo + 1 } (space - 1)
        (st.prevGet st.lastLo :: acc)
    else (st, acc)

/-- The "eject all pending bytes" loop run before surfacing an error. -/
def ejectLast (st : Reader) (space : Nat) (acc : List Nat) : Reader × List Nat :=
  ejectLastAux st.lastLen st space acc

/-- One call of `Reader.Read` with an output buffer of `space` bytes,
as a fuel-indexed recursion where each step is one iteration of the Go
`for len(p) > 0` loop.  Returns the emitted bytes, the final reader state
and the returned error (`none` models returning `n, nil`). -/
def readLoop : Nat → Reader → Nat → List Nat → List Nat × Reader × Option QPErr
  | 0, st, _, acc => (acc.reverse, st, none)
  | fuel + 1, st, space, acc =>
    if space = 0 then (acc.reverse, st, none)
    else if st.line.isEmpty then
      match rfn st with
      | some e =>
        let (st', acc') := ejectLast st space acc
        (acc'.reverse, st', some e)
      | none =>
        let (l, e, rest) := readSlice st.src
        if e = some .bufferFull then
          readLoop fuel { st with src := rest, line := l, rerr := some .bufferFull,
                                  gerr := st.gerr.add .bufferFull } space acc
        else
          let g1 := st.gerr.addUnrecover e
          match processLine l with
          | (l', some se) =>
            readLoop fuel { st with src := rest, line := l', rerr := some se,
                                    gerr := g1.add se } space acc
          | (l', none) =>
            readLoop fuel { st with src := rest, line := l', rerr := e,
                                    gerr := g1 } space acc
    else
      match lastBlock st with
      | .toTop st' => readLoop fuel st' space acc
      | .emit b st' => readLoop fuel st' (space - 1) (b :: acc)
      | .fall st' =>
        match lineStep st' with
        | .toTop st'' => readLoop fuel st'' space acc
        | .emit b st'' => readLoop fuel st'' (space - 1) (b :: acc)
        | .fall st'' => (acc.reverse, st'', none)

/-- A fresh reader over source bytes `s` (`NewStrictReader` when
`strict`, `NewReader` otherwise). -/
def initReader (strict : Bool) (s : List Nat) : Reader :=
  { strict := strict, src := s }

/-- Fuel amply sufficient for a full decode of `s` (every loop iteration
strictly decreases `3*|src| + |line| + space + fatal-flag`). -/
def decodeFuel (s : List Nat) : Nat := 4 * s.length + 64

/-- Decode `s` completely: a single `Read` with an output buffer larger
than the input (decoded output never exceeds the input length), which
drains the whole stream and ends by returning the first surfaced error. -/
def decode (strict : Bool) (s : List Nat) : List Nat × Reader × Option QPErr :=
  readLoop (decodeFuel s) (initReader strict s) (s.length + 1) []

/-- The bytes produced by a full decode. -/
def decodeOut (strict : Bool) (s : List Nat) : List Nat := (decode strict s).1

/-- The error a full decode ends with. -/
def decodeErr (strict : Bool) (s : List Nat) : Option QPErr := (decode strict s).2.2

/-- `{ st with strict := b }` as a function: `strict` is the only field
the error selector `Fn` depends on. -/
def Reader.withStrict (st : Reader) (b : Bool) : Reader := { st with strict := b }

/-- Apply `withStrict` to the state carried inside a step result. -/
def StepRes.setStrict : StepRes → Bool → StepRes
  | .toTop st, b => .toTop (st.withStrict b)
  | .emit x st, b => .emit x (st.withStrict b)
  | .fall st, b => .fall (st.withStrict b)

/-- The state carried inside a step result. -/
def StepRes.rd : StepRes → Reader
  | .toTop st => st
  | .emit _ st => st
  | .fall st => st

/-! ### Step lemmas for `readLoop` -/

theorem Reader.eta (st : Reader) :
    ({ strict := st.strict, src := st.src, line := st.line, p0 := st.p0, p1 := st.p1,
       p2 := st.p2, lastLo := st.lastLo, lastHi := st.lastHi, gerr := st.gerr,
       rerr := st.rerr } : Reader) = st := rfl

theorem readLoop_step_err {st : Reader} {space : Nat} (e : QPErr)
    (h1 : space ≠ 0) (h2 : st.line.isEmpty = true) (h3 : rfn st = some e)
    (fuel : Nat) (acc : List Nat) :
    readLoop (fuel + 1) st space acc
      = ((ejectLast st space acc).2.reverse, (ejectLast st space acc).1, some e) := by
  simp only [readLoop, h1, h2, h3, if_neg h1, if_true, if_false]

theorem readLoop_step_acquire_bf {st : Reader} {space : Nat} {l rest : List Nat}
    (h1 : space ≠ 0) (h2 : st.line.isEmpty = true) (h3 : rfn st = none)
    (h4 : readSlice st.src = (l, some .bufferFull, rest))
    (fuel : Nat) (acc : List Nat) :
    readLoop (fuel + 1) st space acc
      = readLoop fuel { st with src := rest, line := l, rerr := some .bufferFull,
                                gerr := st.gerr.add .bufferFull } space acc := by
  simp only [readLoop, h2, h3, h4, if_neg h1, if_true]

theorem readLoop_step_acquire {st : Reader} {space : Nat} {l rest l' : List Nat}
    {e : Option QPErr}
    (h1 : space ≠ 0) (h2 : st.line.isEmpty = true) (h3 : rfn st = none)
    (h4 : readSlice st.src = (l, e, rest)) (h5 : e ≠ some .bufferFull)
    (h6 : processLine l = (l', none))
    (fuel : Nat) (acc : List Nat) :
    readLoop (fuel + 1) st space acc
      = readLoop fuel { st with src := rest, line := l', rerr := e,
                                gerr := st.gerr.addUnrecover e } space acc := by
  simp only [readLoop, h2, h3, h4, h6, if_neg h1, if_neg h5, if_true]

theorem readLoop_step_acquire_sb {st : Reader} {space : Nat} {l rest l' : List Nat}
    {e : Option QPErr} {se : QPErr}
    (h1 : space ≠ 0) (h2 : st.line.isEmpty = true) (h3 : rfn st = none)
    (h4 : readSlice st.src = (l, e, rest)) (h5 : e ≠ some .bufferFull)
    (h6 : processLine l = (l', some se))
    (fuel : Nat) (acc : List Nat) :
    readLoop (fuel + 1) st space acc
      = readLoop fuel { st with src := rest, line := l', rerr := some se,
                                gerr := (st.gerr.addUnrecover e).add se } space acc := by
  simp only [readLoop, h2, h3, h4, h6, if_neg h1, if_neg h5, if_true]

theorem readLoop_step_last_top {st st' : Reader} {space : Nat}
    (h1 : space ≠ 0) (h2 : st.line.isEmpty = false) (h3 : lastBlock st = .toTop st')
    (fuel : Nat) (acc : List Nat) :
    readLoop (fuel + 1) st space acc = readLoop fuel st' space acc := by
  simp only [readLoop, h2, h3, if_neg h1, Bool.false_eq_true, if_false]

theorem readLoop_step_last_emit {st st' : Reader} {space b : Nat}
    (h1 : space ≠ 0) (h2 : st.line.isEmpty = false) (h3 : lastBlock st = .emit b st')
    (fuel : Nat) (acc : List Nat) :
    readLoop (fuel + 1) st space acc = readLoop fuel st' (space - 1) (b :: acc) := by
  simp only [readLoop, h2, h3, if_neg h1, Bool.false_eq_true, if_false]

theorem readLoop_step_line_top {st st' st'' : Reader} {space : Nat}
    (h1 : space ≠ 0) (h2 : st.line.isEmpty = false) (h3 : lastBlock st = .fall st')
    (h4 : lineStep st' = .toTop st'')
    (fuel : Nat) (acc : List Nat) :
    readLoop (fuel + 1) st space acc = readLoop fuel st'' space acc := by
  simp only [readLoop, h2, h3, h4, if_neg h1, Bool.false_eq_true, if_false]

theorem readLoop_step_line_emit {st st' st'' : Reader} {space b : Nat}
    (h1 : space ≠ 0) (h2 : st.line.isEmpty = false) (h3 : lastBlock st = .fall st')
    (h4 : lineStep st' = .emit b st'')
    (fuel : Nat) (acc : List Nat) :
    readLoop (fuel + 1) st space acc = readLoop fuel st'' (space - 1) (b :: acc) := by
  simp only [readLoop, h2, h3, h4, if_neg h1, Bool.false_eq_true, if_false]

/-- Scanning a run of plain bytes (no `=`, each one either `\t`/`\r`/`\n`
or printable) with an empty straddle buffer emits them verbatim and
leaves every other component of the state unchanged. -/
theorem readLoop_scan (l : List Nat)
    (hcl : ∀ b ∈ l, b ≠ 61 ∧ (b = 9 ∨ b = 13 ∨ b = 10 ∨ (32 ≤ b ∧ b ≤ 126))) :
    ∀ (st : Reader) (rest : List Nat), st.line = l ++ rest → st.lastHi = st.lastLo →
    ∀ (fuel space : Nat) (acc : List Nat),
    readLoop (fuel + l.length) st (space + l.length) acc
      = readLoop fuel { st with line := rest } space (l.reverse ++ acc) := by
  induction l with
  | nil =>
    intro st rest hline hlast fuel space acc
    simp only [List.nil_append] at hline
    simp only [List.length_nil, Nat.add_zero, List.reverse_nil, List.nil_append]
    congr 1
    cases st
    simp_all
  | cons b l ih =>
    intro st rest hline hlast fuel space acc
    have hb := hcl b (by simp)
    have hlb : lastBlock st = .fall st := by
      unfold lastBlock Reader.lastLen
      rw [hlast]
      simp
    have hne : st.line.isEmpty = false := by
      rw [hline]; simp
    have hls : lineStep st = .emit b { st with line := l ++ rest } := by
      unfold lineStep
      rw [hline]
      simp only [List.cons_append]
      rw [if_neg hb.1]
      rcases hb.2 with h | h | h | h
      · rw [if_pos (by omega)]
      · rw [if_pos (by omega)]
      · rw [if_pos (by omega)]
      · rw [if_neg (by omega), if_neg (by omega)]
    have harith : fuel + (b :: l).length = (fuel + l.length) + 1 := by
      simp [List.length_cons]; omega
    have harith2 : space + (b :: l).length = (space + l.length) + 1 := by
      simp [List.length_cons]; omega
    rw [harith, harith2,
        readLoop_step_line_emit (by omega) hne hlb hls,
        Nat.add_sub_cancel]
    rw [ih (fun c hc => hcl c (by simp [hc]))
          { st with line := l ++ rest } rest rfl hlast fuel space (b :: acc)]
    simp

/-! ### Clean inputs decode to themselves (infrastructure for the
trailing-whitespace-free invariant) -/

/-- `x` is empty or does not end in discardable whitespace. -/
def cleanTailB (x : List Nat) : Bool :=
  match x.getLast? with
  | none => true
  | some c => !isQPDiscardWhitespace c

/-- A byte allowed by the pass-through invariant: no `=`, and either
`\t`/`\r`/`\n` or printable. -/
def okByte (b : Nat) : Bool :=
  (b == 9 || b == 13 || b == 10 || (decide (32 ≤ b) && decide (b ≤ 126))) && !(b == 61)

/-- A quoted-printable line (ending in `\n`) whose pre-terminator part —
after also discounting a single `\r` of a CRLF terminator — does not end
in discardable whitespace, so that trimming and re-appending the
terminator reconstructs it exactly. -/
def lineCoreOK (w : List Nat) : Bool :=
  let u := w.dropLast
  if u.getLast? = some 13 then cleanTailB u.dropLast else cleanTailB u

/-- Each `\n`-terminated line fits in the 4096-byte `bufio` buffer and
reconstructs under trimming; fuel-indexed so the recursion is structural. -/
def goodQPAux : Nat → List Nat → Bool
  | _, [] => true
  | 0, _ => false
  | f + 1, s =>
    match s.findIdx? (fun b => b == 10) with
    | some i => decide (i ≤ 4095) && lineCoreOK (s.take (i + 1)) && goodQPAux f (s.drop (i + 1))
    | none => decide (s.length ≤ 4095) && cleanTailB s

def goodQP (s : List Nat) : Bool := goodQPAux s.length s

/-- The hypothesis of the pass-through invariant: every byte is an
`okByte` and the line structure reconstructs under trimming. -/
def goodInput (s : List Nat) : Bool := s.all okByte && goodQP s

theorem trimRightWS_id (x : List Nat) (h : cleanTailB x = true) : trimRightWS x = x := by
  unfold trimRightWS
  cases hx : x.reverse with
  | nil =>
    have : x = [] := by simpa using congrArg List.reverse hx
    simp [this]
  | cons c t =>
    have hg : x.getLast? = some c := by
      rw [← List.head?_reverse, hx]; rfl
    unfold cleanTailB at h
    rw [hg] at h
    simp only [Bool.not_eq_true'] at h
    have hd : List.dropWhile isQPDiscardWhitespace (c :: t) = c :: t := by
      rw [List.dropWhile_cons, h]
      simp
    rw [hd, ← hx, List.reverse_reverse]

theorem trimRightWS_append (x y : List Nat) (hx : cleanTailB x = true)
    (hy : ∀ b ∈ y, isQPDiscardWhitespace b = true) : trimRightWS (x ++ y) = x := by
  have h1 : y.reverse.dropWhile isQPDiscardWhitespace = [] := by
    rw [List.dropWhile_eq_nil_iff]
    intro b hb
    exact hy b (by simpa using hb)
  have h2 := trimRightWS_id x hx
  unfold trimRightWS at h2 ⊢
  rw [List.reverse_append, List.dropWhile_append, h1]
  simpa using h2

theorem sfx_singleton (a : Nat) (x : List Nat) :
    [a].isSuffixOf x = (x.getLast? == some a) := by
  unfold List.isSuffixOf
  rcases x.eq_nil_or_concat with rfl | ⟨y, b, rfl⟩
  · simp [List.isPrefixOf]
  · simp only [List.concat_eq_append]
    rw [List.getLast?_concat, List.reverse_concat]
    show List.isPrefixOf [a] (b :: y.reverse) = (some b == some a)
    by_cases h : a = b
    · subst h; simp [List.isPrefixOf]
    · simp [List.isPrefixOf, h, Ne.symm h]

theorem processLine_noterm (x : List Nat) (hx : cleanTailB x = true)
    (h61 : x.getLast? ≠ some 61) : processLine x = (x, none) := by
  unfold processLine
  rw [trimRightWS_id x hx]
  rw [if_neg h61]
  have hLF : [10].isSuffixOf x = false := by
    rw [sfx_singleton]
    unfold cleanTailB at hx
    cases hg : x.getLast? with
    | none => simp
    | some c =>
      rw [hg] at hx
      simp only [Bool.not_eq_true'] at hx
      have : c ≠ 10 := by
        intro h; rw [h] at hx; simp [isQPDiscardWhitespace] at hx
      simp [this]
  simp [hLF]

theorem processLine_lf (u : List Nat) (hu : cleanTailB u = true)
    (h61 : u.getLast? ≠ some 61) : processLine (u ++ [10]) = (u ++ [10], none) := by
  unfold processLine
  have ht : trimRightWS (u ++ [10]) = u :=
    trimRightWS_append u [10] hu (by intro b hb; simp at hb; simp [hb, isQPDiscardWhitespace])
  rw [ht, if_neg h61]
  have hLF : [10].isSuffixOf (u ++ [10]) = true := by
    rw [sfx_singleton]; simp
  have hCR : [13, 10].isSuffixOf (u ++ [10]) = false := by
    unfold List.isSuffixOf
    have hrev : (u ++ [10]).reverse = 10 :: u.reverse := by
      rw [List.reverse_append]; rfl
    rw [hrev]
    show List.isPrefixOf [13, 10].reverse (10 :: u.reverse) = false
    have h13 : List.isPrefixOf [13] u.reverse = false := by
      rcases u.eq_nil_or_concat with rfl | ⟨y, b, rfl⟩
      · simp [List.isPrefixOf]
      · simp only [List.concat_eq_append] at hu ⊢
        rw [List.reverse_concat]
        unfold cleanTailB at hu
        rw [List.getLast?_concat] at hu
        simp only [Bool.not_eq_true'] at hu
        have hb : b ≠ 13 := by
          intro h; rw [h] at hu; simp [isQPDiscardWhitespace] at hu
        simp [List.isPrefixOf, Ne.symm hb]
    show List.isPrefixOf [10, 13] (10 :: u.reverse) = false
    simp [List.isPrefixOf, h13]
  simp [hLF, hCR]

theorem processLine_crlf (u : List Nat) (hu : cleanTailB u = true)
    (h61 : u.getLast? ≠ some 61) : processLine (u ++ [13, 10]) = (u ++ [13, 10], none) := by
  unfold processLine
  have ht : trimRightWS (u ++ [13, 10]) = u :=
    trimRightWS_append u [13, 10] hu
      (by intro b hb; simp at hb; rcases hb with h | h <;> simp [h, isQPDiscardWhitespace])
  rw [ht, if_neg h61]
  have hLF : [10].isSuffixOf (u ++ [13, 10]) = true := by
    rw [sfx_singleton]; simp
  have hCR : [13, 10].isSuffixOf (u ++ [13, 10]) = true := by
    unfold List.isSuffixOf
    rw [List.reverse_append]
    simp [List.isPrefixOf]
  simp only [hLF, hCR]
  simp

theorem readSlice_mid (u s' : List Nat) (hu : ∀ b ∈ u, (b == 10) = false)
    (hlen : u.length ≤ 4095) :
    readSlice (u ++ 10 :: s') = (u ++ [10], none, s') := by
  unfold readSlice
  rw [if_neg (by simp)]
  have hidx : ((u ++ 10 :: s').take bufioSize).findIdx? (fun b => b == 10)
      = some u.length := by
    have h1 : (u ++ 10 :: s').take bufioSize
        = u ++ 10 :: (s'.take (bufioSize - (u.length + 1))) := by
      rw [List.take_append_eq_append_take, List.take_of_length_le (by unfold bufioSize; omega)]
      congr 1
      have : bufioSize - u.length = (bufioSize - u.length - 1) + 1 := by
        unfold bufioSize; omega
      rw [this, List.take_succ_cons, Nat.sub_sub]
    rw [h1, List.findIdx?_append]
    have h2 : u.findIdx? (fun b => b == 10) = none :=
      List.findIdx?_eq_none_iff.2 hu
    rw [h2]
    simp
  rw [hidx]
  have h3 : (u ++ 10 :: s').take (u.length + 1) = u ++ [10] := by
    rw [List.take_append_eq_append_take, List.take_of_length_le (by omega)]
    simp
  have h4 : (u ++ 10 :: s').drop (u.length + 1) = s' := by
    rw [List.drop_append_eq_append_drop]
    simp
  simp [h3, h4]

theorem readSlice_tail (s : List Nat) (hs : ∀ b ∈ s, (b == 10) = false)
    (hlen : s.length ≤ 4095) (hne : s ≠ []) :
    readSlice s = (s, some .eofErr, []) := by
  unfold readSlice
  rw [if_neg (by simpa using hne)]
  have h1 : s.take bufioSize = s := List.take_of_length_le (by unfold bufioSize; omega)
  rw [h1, List.findIdx?_eq_none_iff.2 hs]
  simp [show ¬(bufioSize ≤ s.length) from by unfold bufioSize; omega]

theorem okByte_spec (b : Nat) (h : okByte b = true) :
    b ≠ 61 ∧ (b = 9 ∨ b = 13 ∨ b = 10 ∨ (32 ≤ b ∧ b ≤ 126)) := by
  unfold okByte at h
  simp at h
  omega

theorem getLast?_ne_61_of_okByte (x : List Nat) (hx : ∀ b ∈ x, okByte b = true) :
    x.getLast? ≠ some 61 := by
  intro h
  have hm : 61 ∈ x := by
    rcases x.eq_nil_or_concat with rfl | ⟨y, b, rfl⟩
    · simp at h
    · simp only [List.concat_eq_append, List.getLast?_concat] at h
      simp only [List.concat_eq_append]
      simp at h
      simp [h]
  have := okByte_spec 61 (hx 61 hm)
  exact this.1 rfl

/-- Once the source, line and straddle buffer are exhausted and no
recoverable error is recorded, a strict read ends with `io.EOF`. -/
theorem readLoop_end (st : Reader) (fuel space : Nat) (acc : List Nat)
    (hstrict : st.strict = true) (hsrc : st.src = []) (hline : st.line = [])
    (hlast : st.lastHi = st.lastLo) (hrecs : st.gerr.recs = [])
    (hfatal : st.gerr.fatal = none)
    (hfuel : 2 ≤ fuel) (hspace : 1 ≤ space) :
    ∃ st', readLoop fuel st space acc = (acc.reverse, st', some .eofErr)
      ∧ st'.gerr.recs = [] := by
  obtain ⟨f1, rfl⟩ : ∃ f1, fuel = f1 + 2 := ⟨fuel - 2, by omega⟩
  have h2 : st.line.isEmpty = true := by simp [hline]
  have h3 : rfn st = none := by
    simp [rfn, hstrict, RErr.getErr, hrecs, hfatal]
  have h4 : readSlice st.src = ([], some .eofErr, []) := by rw [hsrc]; rfl
  have h6 : processLine [] = ([], none) := rfl
  rw [show f1 + 2 = (f1 + 1) + 1 from rfl,
      readLoop_step_acquire (by omega) h2 h3 h4 (by simp) h6]
  set st2 : Reader := { st with src := [], line := [], rerr := some QPErr.eofErr, gerr := st.gerr.addUnrecover (some QPErr.eofErr) } with hst2
  have h7 : rfn st2 = some .eofErr := by
    simp [rfn, hst2, hstrict, RErr.addUnrecover, RErr.getErr, hrecs]
  have h8 : st2.line.isEmpty = true := by simp [hst2]
  rw [readLoop_step_err _ (by omega) h8 h7]
  have h9 : ejectLast st2 space acc = (st2, acc) := by
    unfold ejectLast ejectLastAux Reader.lastLen
    simp [hst2, hlast]
  rw [h9]
  exact ⟨st2, by simp, by simp [hst2, RErr.addUnrecover, hrecs]⟩

/-- Generic surfacing step: with an empty line and straddle buffer, a
`Read` iteration returns whatever error the selector reports. -/
theorem readLoop_surface (st : Reader) (fuel space : Nat) (acc : List Nat) (e : QPErr)
    (hline : st.line = []) (hlast : st.lastHi = st.lastLo)
    (hrfn : rfn st = some e) (hfuel : 1 ≤ fuel) (hspace : 1 ≤ space) :
    readLoop fuel st space acc = (acc.reverse, st, some e) := by
  obtain ⟨f1, rfl⟩ : ∃ f1, fuel = f1 + 1 := ⟨fuel - 1, by omega⟩
  have h2 : st.line.isEmpty = true := by simp [hline]
  rw [readLoop_step_err _ (by omega) h2 hrfn]
  have h9 : ejectLast st space acc = (st, acc) := by
    unfold ejectLast ejectLastAux Reader.lastLen
    simp [hlast]
  rw [h9]

/-- When the fatal `io.EOF` is already recorded and nothing is pending,
the next `Read` iteration surfaces it at once. -/
theorem readLoop_end_fatal (st : Reader) (fuel space : Nat) (acc : List Nat)
    (hstrict : st.strict = true) (hline : st.line = [])
    (hlast : st.lastHi = st.lastLo) (hrecs : st.gerr.recs = [])
    (hfatal : st.gerr.fatal = some .eofErr)
    (hfuel : 1 ≤ fuel) (hspace : 1 ≤ space) :
    ∃ st', readLoop fuel st space acc = (acc.reverse, st', some .eofErr)
      ∧ st'.gerr.recs = [] := by
  obtain ⟨f1, rfl⟩ : ∃ f1, fuel = f1 + 1 := ⟨fuel - 1, by omega⟩
  have h2 : st.line.isEmpty = true := by simp [hline]
  have h7 : rfn st = some .eofErr := by
    simp [rfn, hstrict, RErr.getErr, hrecs, hfatal]
  rw [readLoop_step_err _ (by omega) h2 h7]
  have h9 : ejectLast st space acc = (st, acc) := by
    unfold ejectLast ejectLastAux Reader.lastLen
    simp [hlast]
  rw [h9]
  exact ⟨st, by simp, hrecs⟩

theorem goodQPAux_succ (g : Nat) (s : List Nat) (h : s ≠ []) :
    goodQPAux (g + 1) s
      = match s.findIdx? (fun b => b == 10) with
        | some i => decide (i ≤ 4095) && lineCoreOK (s.take (i + 1))
            && goodQPAux g (s.drop (i + 1))
        | none => decide (s.length ≤ 4095) && cleanTailB s := by
  cases s with
  | nil => simp at h
  | cons b t => rfl

/-- The processed-line identity, packaged for a line `u ++ [10]` whose
core satisfies `lineCoreOK` and contains no `=`. -/
theorem processLine_of_core (u : List Nat) (hcore : lineCoreOK (u ++ [10]) = true)
    (hok : ∀ b ∈ u, okByte b = true) :
    processLine (u ++ [10]) = (u ++ [10], none) := by
  unfold lineCoreOK at hcore
  rw [List.dropLast_concat] at hcore
  by_cases hc : u.getLast? = some 13
  · rw [if_pos hc] at hcore
    have hu : u.dropLast ++ [13] = u := List.dropLast_append_getLast? _ hc
    have h61 : u.dropLast.getLast? ≠ some 61 :=
      getLast?_ne_61_of_okByte _ (fun b hb =>
        hok b (List.dropLast_sublist u |>.mem hb))
    have := processLine_crlf u.dropLast hcore h61
    calc processLine (u ++ [10]) = processLine (u.dropLast ++ [13, 10]) := by
          rw [← hu]; simp
      _ = (u.dropLast ++ [13, 10], none) := this
      _ = (u ++ [10], none) := by rw [← hu]; simp
  · rw [if_neg hc] at hcore
    exact processLine_lf u hcore (getLast?_ne_61_of_okByte u hok)

/-- The main pass-through invariant: a strict decode of a `goodInput`
source (no `=`, only `\t\r\n`/printable bytes, lines that reconstruct
under trimming) emits the source verbatim, ends in `io.EOF`, and records
no recoverable error. -/
theorem readLoop_clean (f : Nat) : ∀ (s : List Nat), s.length ≤ f →
    (∀ b ∈ s, okByte b = true) → goodQPAux f s = true →
    ∀ (st : Reader) (fuel space : Nat) (acc : List Nat),
    st.strict = true → st.src = s → st.line = [] → st.lastHi = st.lastLo →
    st.gerr = {} →
    2 * s.length + 4 ≤ fuel → s.length + 1 ≤ space →
    ∃ st', readLoop fuel st space acc = (acc.reverse ++ s, st', some .eofErr)
      ∧ st'.gerr.recs = [] := by
  induction f with
  | zero =>
    intro s hsf hok hgood st fuel space acc hstrict hsrc hline hlast hgerr hfuel hspace
    have hs : s = [] := List.eq_nil_of_length_eq_zero (by omega)
    subst hs
    simpa using readLoop_end st fuel space acc hstrict hsrc hline hlast
      (by simp [hgerr]) (by simp [hgerr]) (by omega) (by omega)
  | succ g ih =>
    intro s hsf hok hgood st fuel space acc hstrict hsrc hline hlast hgerr hfuel hspace
    by_cases hs : s = []
    · subst hs
      simpa using readLoop_end st fuel space acc hstrict hsrc hline hlast
        (by simp [hgerr]) (by simp [hgerr]) (by omega) (by omega)
    rw [goodQPAux_succ g s hs] at hgood
    cases hidx : s.findIdx? (fun b => b == 10) with
    | some i =>
      rw [hidx] at hgood
      simp only [Bool.and_eq_true, decide_eq_true_eq] at hgood
      obtain ⟨⟨hi4095, hcore⟩, hrest⟩ := hgood
      obtain ⟨hilt, hp, hprev⟩ := List.findIdx?_eq_some_iff_getElem.1 hidx
      -- decompose s = u ++ 10 :: s'
      set u := s.take i with hu_def
      set s' := s.drop (i + 1) with hs'_def
      have hgi : s[i] = 10 := by simpa using hp
      have hdecomp : s = u ++ 10 :: s' := by
        conv_lhs => rw [← List.take_append_drop i s]
        rw [List.drop_eq_getElem_cons hilt, hgi]
      have hulen : u.length = i := by
        rw [hu_def, List.length_take]
        omega
      have hu10 : ∀ b ∈ u, (b == 10) = false := by
        intro b hb
        obtain ⟨j, hj, hju⟩ := List.getElem_of_mem hb
        have hj' : j < i := by omega
        have hjs : j < s.length := by omega
        have h1 : u[j]? = some b := by
          rw [List.getElem?_eq_getElem hj, hju]
        have h2 : s[j]? = some b := by
          rw [hu_def] at h1
          rwa [List.getElem?_take_of_lt hj'] at h1
        have h3 := hprev j hj'
        rw [List.getElem?_eq_getElem hjs] at h2
        have h5 : s[j] = b := by simpa using h2
        rw [← h5]
        simpa using h3
      have humem : ∀ b ∈ u, b ∈ s := by
        intro b hb
        rw [hdecomp]
        exact List.mem_append_left _ hb
    -- readSlice gives this line
      have hrs : readSlice s = (u ++ [10], none, s') := by
        rw [hdecomp]
        exact readSlice_mid u s' hu10 (by omega)
      have htake : s.take (i + 1) = u ++ [10] := by
        conv_lhs => rw [hdecomp]
        rw [List.take_append_eq_append_take, List.take_of_length_le (by omega)]
        have : i + 1 - u.length = 1 := by omega
        rw [this]
        rfl
      rw [htake] at hcore
      have hpl : processLine (u ++ [10]) = (u ++ [10], none) :=
        processLine_of_core u hcore (fun b hb => hok b (humem b hb))
      -- one acquisition step
      obtain ⟨f1, rfl⟩ : ∃ f1, fuel = f1 + 1 := ⟨fuel - 1, by omega⟩
      have hstep := @readLoop_step_acquire st space _ _ _ _ (by omega)
        (by simp [hline]) (by simp [rfn, hstrict, hgerr, RErr.getErr])
        (by rw [hsrc]; exact hrs) (by simp) hpl f1 acc
      rw [hstep]
      set st2 : Reader := { st with src := s', line := u ++ [10], rerr := none, gerr := st.gerr.addUnrecover none } with hst2
      -- scan the whole line
      have hlen_s : s.length = u.length + 1 + s'.length := by
        rw [hdecomp]; simp; omega
      obtain ⟨f2, rfl⟩ : ∃ f2, f1 = f2 + (u ++ [10]).length :=
        ⟨f1 - (u ++ [10]).length, by simp; simp at hfuel; omega⟩
      obtain ⟨sp2, hsp2⟩ : ∃ sp2, space = sp2 + (u ++ [10]).length ∧ s'.length + 1 ≤ sp2 := by
        refine ⟨space - (u ++ [10]).length, by simp; omega, by simp; omega⟩
      obtain ⟨hsp2a, hsp2b⟩ := hsp2
      rw [hsp2a]
      have hscan := readLoop_scan (u ++ [10])
        (by
          intro b hb
          simp at hb
          rcases hb with hb | hb
          · exact okByte_spec b (hok b (humem b hb))
          · subst hb; exact okByte_spec 10 (by simp [okByte]))
        st2 [] (by simp [hst2]) (by simp [hst2, hlast]) f2 sp2 acc
      rw [hscan]
      -- inductive hypothesis on the remaining source
      have hok' : ∀ b ∈ s', okByte b = true := by
        intro b hb
        refine hok b ?_
        rw [hdecomp]
        simp [hb]
      have hres := ih s' (by omega) hok' hrest
        { st2 with line := [] } f2 sp2 ((u ++ [10]).reverse ++ acc)
        (by simp [hst2, hstrict]) (by simp [hst2]) (by simp)
        (by simp [hst2, hlast]) (by simp [hst2, hgerr, RErr.addUnrecover])
        (by simp at hfuel ⊢; omega) hsp2b
      obtain ⟨st', hst', hrecs'⟩ := hres
      refine ⟨st', ?_, hrecs'⟩
      rw [hst']
      congr 1
      rw [List.reverse_append, List.reverse_reverse, hdecomp]
      simp
    | none =>
      rw [hidx] at hgood
      simp only [Bool.and_eq_true, decide_eq_true_eq] at hgood
      obtain ⟨hlen, htail⟩ := hgood
      have hs10 : ∀ b ∈ s, (b == 10) = false := List.findIdx?_eq_none_iff.1 hidx
      have hrs : readSlice s = (s, some .eofErr, []) := readSlice_tail s hs10 hlen hs
      have hpl : processLine s = (s, none) :=
        processLine_noterm s htail (getLast?_ne_61_of_okByte s hok)
      obtain ⟨f1, rfl⟩ : ∃ f1, fuel = f1 + 1 := ⟨fuel - 1, by omega⟩
      have hstep := @readLoop_step_acquire st space _ _ _ _ (by omega)
        (by simp [hline]) (by simp [rfn, hstrict, hgerr, RErr.getErr])
        (by rw [hsrc]; exact hrs) (by simp) hpl f1 acc
      rw [hstep]
      set st2 : Reader := { st with src := [], line := s, rerr := some QPErr.eofErr, gerr := st.gerr.addUnrecover (some QPErr.eofErr) } with hst2
      obtain ⟨f2, rfl⟩ : ∃ f2, f1 = f2 + s.length := ⟨f1 - s.length, by omega⟩
      obtain ⟨sp2, hsp2a, hsp2b⟩ : ∃ sp2, space = sp2 + s.length ∧ 1 ≤ sp2 :=
        ⟨space - s.length, by omega, by omega⟩
      rw [hsp2a]
      have hscan := readLoop_scan s
        (fun b hb => okByte_spec b (hok b hb))
        st2 [] (by simp [hst2]) (by simp [hst2, hlast]) f2 sp2 acc
      rw [hscan]
      have hend := readLoop_end_fatal { st2 with line := [] } f2 sp2 (s.reverse ++ acc)
        (by simp [hst2, hstrict]) (by simp)
        (by simp [hst2, hlast])
        (by simp [hst2, hgerr, RErr.addUnrecover])
        (by simp [hst2, hgerr, RErr.addUnrecover])
        (by omega) hsp2b
      obtain ⟨st', hst', hrecs'⟩ := hend
      refine ⟨st', ?_, hrecs'⟩
      rw [hst']
      congr 1
      rw [List.reverse_append, List.reverse_reverse]

/-! ### Claim C2 -/

/-- C2 (counterexample): the claim asserts `strict-decode(s) = s` for every
`s` with no `=`, no control bytes besides `\t\r\n` and no byte above
`0x7E`, "including ones with trailing spaces or tabs before a line
terminator".  The input `"a \n"` satisfies all those conditions, yet the
reader trims the trailing space: it decodes to `"a\n"`, not to itself. -/
theorem c2_trailing_space_counterexample :
    (¬ (61 : Nat) ∈ ([97, 32, 10] : List Nat)
      ∧ (∀ b ∈ ([97, 32, 10] : List Nat), b < 32 → b = 9 ∨ b = 13 ∨ b = 10)
      ∧ (∀ b ∈ ([97, 32, 10] : List Nat), b ≤ 126))
    ∧ decodeOut true [97, 32, 10] = [97, 10]
    ∧ decodeOut true [97, 32, 10] ≠ [97, 32, 10] := by
  refine ⟨by decide, by decide, by decide⟩

/-- C2 (amended): for every input `s` with no `=`, only `\t`/`\r`/`\n` or
printable bytes, in which every `\n`-terminated line fits the 4096-byte
source buffer and carries no discardable whitespace right before its
`\n`/`\r\n` terminator (and none at end of input), the strict reader
outputs exactly `s`, ends with the end-of-stream error `io.EOF`, and
records no recoverable error. -/
theorem c2_clean_passthrough (s : List Nat) (h : goodInput s = true) :
    decodeOut true s = s ∧ decodeErr true s = some .eofErr
      ∧ (decode true s).2.1.gerr.recs = [] := by
  have hparts := h
  unfold goodInput goodQP at hparts
  simp only [Bool.and_eq_true, List.all_eq_true] at hparts
  obtain ⟨hall, hgood⟩ := hparts
  obtain ⟨st', hst', hrecs⟩ := readLoop_clean s.length s le_rfl hall hgood
    (initReader true s) (decodeFuel s) (s.length + 1) []
    rfl rfl rfl rfl rfl (by unfold decodeFuel; omega) le_rfl
  have hd : decode true s = (s, st', some .eofErr) := by
    unfold decode
    rw [hst']
    simp
  unfold decodeOut decodeErr
  rw [hd]
  exact ⟨rfl, rfl, hrecs⟩

/-- C2 (witness): the amended theorem applied to the concrete clean input
`"a\r\nbc"`. -/
theorem c2_clean_passthrough_witness :
    goodInput [97, 13, 10, 98, 99] = true
      ∧ decodeOut true [97, 13, 10, 98, 99] = [97, 13, 10, 98, 99] := by
  refine ⟨by decide, (c2_clean_passthrough [97, 13, 10, 98, 99] (by decide)).1⟩

/-! ### Claim C1 -/

/-- The 4100-byte `TestLongBuffer` input: all `'A'` except `'='` at index
4095 and `'\n'` at index 4096. -/
def c1inputLF : List Nat := List.replicate 4095 65 ++ 61 :: 10 :: List.replicate 3 65

/-- The variant with `'='` at 4095 and `"\r\n"` at 4096-4097. -/
def c1inputCRLF : List Nat :=
  List.replicate 4095 65 ++ 61 :: 13 :: 10 :: List.replicate 2 65

theorem isEmpty_false_of_ne_nil (l : List Nat) (h : l ≠ []) : l.isEmpty = false := by
  cases l with
  | nil => simp at h
  | cons a t => rfl

/-- `ReadSlice` on the long-buffer inputs: the 4096-byte buffer fills with
the 4095 `'A'`s and the `'='` before any `'\n'` is seen, so the read
returns those 4096 bytes with `bufio.ErrBufferFull`. -/
theorem readSlice_bigA (tail : List Nat) :
    readSlice (List.replicate 4095 65 ++ 61 :: tail)
      = (List.replicate 4095 65 ++ [61], some .bufferFull, tail) := by
  have hlenrep : (List.replicate 4095 65 : List Nat).length = 4095 :=
    List.length_replicate 4095 65
  have hne : (List.replicate 4095 65 ++ 61 :: tail).isEmpty = false := by
    apply isEmpty_false_of_ne_nil
    apply List.ne_nil_of_length_pos
    rw [List.length_append, List.length_cons, hlenrep]
    omega
  have h1 : (List.replicate 4095 65 : List Nat).take bufioSize
      = List.replicate 4095 65 :=
    List.take_of_length_le (by rw [hlenrep]; unfold bufioSize; omega)
  have h2 : bufioSize - (List.replicate 4095 65 : List Nat).length = 1 := by
    rw [hlenrep]
    rfl
  have htake : (List.replicate 4095 65 ++ 61 :: tail).take bufioSize
      = List.replicate 4095 65 ++ [61] := by
    rw [List.take_append_eq_append_take, h1, h2]
    rfl
  have h3 : (List.replicate 4095 65 : List Nat).drop bufioSize = [] :=
    List.drop_eq_nil_of_le (by rw [hlenrep]; unfold bufioSize; omega)
  have hdrop : (List.replicate 4095 65 ++ 61 :: tail).drop bufioSize = tail := by
    rw [List.drop_append_eq_append_drop, h3, h2]
    rfl
  have hfind : (List.replicate 4095 65 ++ [61]).findIdx? (fun b => b == 10) = none := by
    rw [List.findIdx?_append, List.findIdx?_replicate]
    simp only [show ((65 : Nat) == 10) = false from rfl, Bool.false_eq_true, and_false,
      if_false, Option.none_or]
    rfl
  have hlen : bufioSize ≤ (List.replicate 4095 65 ++ 61 :: tail).length := by
    rw [List.length_append, List.length_cons, hlenrep]
    unfold bufioSize
    omega
  unfold readSlice
  rw [hne, htake, hfind, hdrop, if_pos hlen]
  rfl

/-- The shape of every intermediate reader state passed through while
decoding the long-buffer inputs. -/
def c1st (src line : List Nat) (p0v lastHiv : Nat)
    (fatalv rerrv : Option QPErr) : Reader :=
  { strict := false, src := src, line := line, p0 := p0v, lastLo := 0,
    lastHi := lastHiv, gerr := { recs := [.bufferFull], fatal := fatalv },
    rerr := rerrv }

/-- C1: decoding the 4100-byte all-`'A'` input with `=\n` (respectively
`=\r\n`) at index 4095 through the lenient reader yields exactly 4098
(respectively 4097) `'A'` bytes and ends with the clean end-of-stream
error `io.EOF` (a nil error to `io.Copy`): the `=` that straddles the
4096-byte seam is stashed in `prev` and elided as a soft break. -/
theorem c1_long_buffer_straddle :
    decodeOut false c1inputLF = List.replicate 4098 65
    ∧ decodeErr false c1inputLF = some .eofErr
    ∧ decodeOut false c1inputCRLF = List.replicate 4097 65
    ∧ decodeErr false c1inputCRLF = some .eofErr := by
  have hscanA : ∀ (src2 line2 : List Nat) (fuel space : Nat),
      readLoop (fuel + 4095) (c1st src2 (List.replicate 4095 65 ++ line2) 0 0
          none (some .bufferFull)) (space + 4095) []
        = readLoop fuel (c1st src2 line2 0 0 none (some .bufferFull)) space
            ((List.replicate 4095 65).reverse ++ []) := by
    intro src2 line2 fuel space
    have h := readLoop_scan (List.replicate 4095 65)
      (by intro b hb; rw [List.eq_of_mem_replicate hb]; omega)
      (c1st src2 (List.replicate 4095 65 ++ line2) 0 0 none (some .bufferFull))
      line2 rfl rfl fuel space []
    simp only [List.length_replicate] at h
    exact h
  -- the LF variant
  have hLF : decode false c1inputLF
      = (List.replicate 4098 65,
         c1st [] [] 61 0 (some .eofErr) (some .eofErr), some .eofErr) := by
    have hlen1 : c1inputLF.length = 4100 := by
      unfold c1inputLF
      rw [List.length_append, List.length_replicate]
      rfl
    have hfuel1 : decodeFuel c1inputLF = 16464 := by
      unfold decodeFuel
      rw [hlen1]
    unfold decode
    rw [hfuel1, hlen1]
    show readLoop 16464 (initReader false c1inputLF) 4101 [] = _
    rw [show (16464 : Nat) = 16463 + 1 from by norm_num,
        @readLoop_step_acquire_bf (initReader false c1inputLF) 4101 _ _
          (by omega) rfl rfl (readSlice_bigA (10 :: List.replicate 3 65))]
    show readLoop 16463 (c1st (10 :: List.replicate 3 65)
      (List.replicate 4095 65 ++ [61]) 0 0 none (some .bufferFull)) 4101 [] = _
    rw [show (16463 : Nat) = 12368 + 4095 from by norm_num,
        show (4101 : Nat) = 6 + 4095 from by norm_num,
        hscanA (10 :: List.replicate 3 65) [61] 12368 6]
    have e2 : lastBlock (c1st (10 :: List.replicate 3 65) [61] 0 0 none
        (some .bufferFull)) = .fall (c1st (10 :: List.replicate 3 65) [61] 0 0 none
        (some .bufferFull)) := by rfl
    have e3 : lineStep (c1st (10 :: List.replicate 3 65) [61] 0 0 none
        (some .bufferFull)) = .toTop (c1st (10 :: List.replicate 3 65) [] 61 1 none
        (some .bufferFull)) := by rfl
    rw [show (12368 : Nat) = 12367 + 1 from by norm_num,
        readLoop_step_line_top (by omega) (by rfl) e2 e3]
    have r4 : readSlice (c1st (10 :: List.replicate 3 65) [] 61 1 none
        (some .bufferFull)).src = ([10], none, List.replicate 3 65) := by rfl
    have p4 : processLine [10] = ([10], none) := by rfl
    rw [show (12367 : Nat) = 12366 + 1 from by norm_num,
        readLoop_step_acquire (by omega) (by rfl) (by rfl) r4 (by simp) p4]
    show readLoop 12366 (c1st (List.replicate 3 65) [10] 61 1 none none) 6 _ = _
    have e5 : lastBlock (c1st (List.replicate 3 65) [10] 61 1 none none)
        = .toTop (c1st (List.replicate 3 65) [] 61 0 none none) := by rfl
    rw [show (12366 : Nat) = 12365 + 1 from by norm_num,
        readLoop_step_last_top (by omega) (by rfl) e5]
    have r6 : readSlice (c1st (List.replicate 3 65) [] 61 0 none none).src
        = (List.replicate 3 65, some .eofErr, []) := by rfl
    have p6 : processLine (List.replicate 3 65) = (List.replicate 3 65, none) := by rfl
    rw [show (12365 : Nat) = 12364 + 1 from by norm_num,
        readLoop_step_acquire (by omega) (by rfl) (by rfl) r6 (by simp) p6]
    show readLoop 12364 (c1st [] (List.replicate 3 65) 61 0 (some .eofErr)
      (some .eofErr)) 6 ((List.replicate 4095 65).reverse ++ []) = _
    have hscan2 := readLoop_scan (List.replicate 3 65)
      (by intro b hb; rw [List.eq_of_mem_replicate hb]; omega)
      (c1st [] (List.replicate 3 65) 61 0 (some .eofErr) (some .eofErr)) []
      (by simp [c1st]) rfl 12361 3 ((List.replicate 4095 65).reverse ++ [])
    simp only [List.length_replicate] at hscan2
    conv_lhs => rw [show (12364 : Nat) = 12361 + 3 from by norm_num,
        show (6 : Nat) = 3 + 3 from by norm_num, hscan2]
    have haccrw : (List.replicate 3 65).reverse
        ++ ((List.replicate 4095 65).reverse ++ [])
        = (List.replicate 4098 65).reverse := by
      rw [List.append_nil, ← List.reverse_append,
          show ((4098 : Nat)) = 4095 + 3 from by norm_num, List.replicate_add]
    conv_lhs => rw [haccrw]
    rw [readLoop_surface _ _ _ _ QPErr.eofErr (by rfl) (by rfl) (by rfl)
        (by omega) (by omega), List.reverse_reverse]
    rfl
  -- the CRLF variant
  have hCR : decode false c1inputCRLF
      = (List.replicate 4097 65,
         c1st [] [] 61 0 (some .eofErr) (some .eofErr), some .eofErr) := by
    have hlen1 : c1inputCRLF.length = 4100 := by
      unfold c1inputCRLF
      rw [List.length_append, List.length_replicate]
      rfl
    have hfuel1 : decodeFuel c1inputCRLF = 16464 := by
      unfold decodeFuel
      rw [hlen1]
    unfold decode
    rw [hfuel1, hlen1]
    show readLoop 16464 (initReader false c1inputCRLF) 4101 [] = _
    rw [show (16464 : Nat) = 16463 + 1 from by norm_num,
        @readLoop_step_acquire_bf (initReader false c1inputCRLF) 4101 _ _
          (by omega) rfl rfl
          (readSlice_bigA (13 :: 10 :: List.replicate 2 65))]
    show readLoop 16463 (c1st (13 :: 10 :: List.replicate 2 65)
      (List.replicate 4095 65 ++ [61]) 0 0 none (some .bufferFull)) 4101 [] = _
    rw [show (16463 : Nat) = 12368 + 4095 from by norm_num,
        show (4101 : Nat) = 6 + 4095 from by norm_num,
        hscanA (13 :: 10 :: List.replicate 2 65) [61] 12368 6]
    have e2 : lastBlock (c1st (13 :: 10 :: List.replicate 2 65) [61] 0 0 none
        (some .bufferFull)) = .fall (c1st (13 :: 10 :: List.replicate 2 65) [61] 0 0
        none (some .bufferFull)) := by rfl
    have e3 : lineStep (c1st (13 :: 10 :: List.replicate 2 65) [61] 0 0 none
        (some .bufferFull)) = .toTop (c1st (13 :: 10 :: List.replicate 2 65) [] 61 1
        none (some .bufferFull)) := by rfl
    rw [show (12368 : Nat) = 12367 + 1 from by norm_num,
        readLoop_step_line_top (by omega) (by rfl) e2 e3]
    have r4 : readSlice (c1st (13 :: 10 :: List.replicate 2 65) [] 61 1 none
        (some .bufferFull)).src = ([13, 10], none, List.replicate 2 65) := by rfl
    have p4 : processLine [13, 10] = ([13, 10], none) := by rfl
    rw [show (12367 : Nat) = 12366 + 1 from by norm_num,
        readLoop_step_acquire (by omega) (by rfl) (by rfl) r4 (by simp) p4]
    show readLoop 12366 (c1st (List.replicate 2 65) [13, 10] 61 1 none none) 6 _ = _
    have e5 : lastBlock (c1st (List.replicate 2 65) [13, 10] 61 1 none none)
        = .toTop (c1st (List.replicate 2 65) [] 61 0 none none) := by rfl
    rw [show (12366 : Nat) = 12365 + 1 from by norm_num,
        readLoop_step_last_top (by omega) (by rfl) e5]
    have r6 : readSlice (c1st (List.replicate 2 65) [] 61 0 none none).src
        = (List.replicate 2 65, some .eofErr, []) := by rfl
    have p6 : processLine (List.replicate 2 65) = (List.replicate 2 65, none) := by rfl
    rw [show (12365 : Nat) = 12364 + 1 from by norm_num,
        readLoop_step_acquire (by omega) (by rfl) (by rfl) r6 (by simp) p6]
    show readLoop 12364 (c1st [] (List.replicate 2 65) 61 0 (some .eofErr)
      (some .eofErr)) 6 ((List.replicate 4095 65).reverse ++ []) = _
    have hscan2 := readLoop_scan (List.replicate 2 65)
      (by intro b hb; rw [List.eq_of_mem_replicate hb]; omega)
      (c1st [] (List.replicate 2 65) 61 0 (some .eofErr) (some .eofErr)) []
      (by simp [c1st]) rfl 12362 4 ((List.replicate 4095 65).reverse ++ [])
    simp only [List.length_replicate] at hscan2
    conv_lhs => rw [show (12364 : Nat) = 12362 + 2 from by norm_num,
        show (6 : Nat) = 4 + 2 from by norm_num, hscan2]
    have haccrw : (List.replicate 2 65).reverse
        ++ ((List.replicate 4095 65).reverse ++ [])
        = (List.replicate 4097 65).reverse := by
      rw [List.append_nil, ← List.reverse_append,
          show ((4097 : Nat)) = 4095 + 2 from by norm_num, List.replicate_add]
    conv_lhs => rw [haccrw]
    rw [readLoop_surface _ _ _ _ QPErr.eofErr (by rfl) (by rfl) (by rfl)
        (by omega) (by omega), List.reverse_reverse]
    rfl
  unfold decodeOut decodeErr
  rw [hLF, hCR]
  exact ⟨rfl, rfl, rfl, rfl⟩

/-! ### Claim C7 -/

/-- C7: when a line right-trims to something ending in `=`, the reader
strips that `=` (the soft break never reaches the decoded output), and
records the recoverable `invalid bytes after =` error exactly when the
trimmed-off tail after the `=` is neither `\n`- nor `\r\n`-led (which
includes the empty tail at end-of-stream); concretely, strict-decoding
`"Sendt fra min iPad="` yields `"Sendt fra min iPad"` with the error
`invalid bytes after =: ""`. -/
theorem c7_soft_break_strip :
    (∀ w : List Nat, (trimRightWS w).getLast? = some 61 →
      (processLine w).1 = (trimRightWS w).dropLast
      ∧ ((processLine w).2 = none
          ↔ ([10].isPrefixOf (w.drop (trimRightWS w).length) = true
             ∨ [13, 10].isPrefixOf (w.drop (trimRightWS w).length) = true))
      ∧ ((processLine w).2 ≠ none →
          (processLine w).2
            = some (.invalidAfterEq (w.drop (trimRightWS w).length))))
    ∧ decodeOut true
        [83, 101, 110, 100, 116, 32, 102, 114, 97, 32, 109, 105, 110, 32, 105, 80, 97, 100, 61]
        = [83, 101, 110, 100, 116, 32, 102, 114, 97, 32, 109, 105, 110, 32, 105, 80, 97, 100]
    ∧ decodeErr true
        [83, 101, 110, 100, 116, 32, 102, 114, 97, 32, 109, 105, 110, 32, 105, 80, 97, 100, 61]
        = some (.invalidAfterEq []) := by
  refine ⟨?_, by decide, by decide⟩
  intro w h
  unfold processLine
  rw [if_pos h]
  dsimp only
  by_cases hp : [10].isPrefixOf (w.drop (trimRightWS w).length) = true
      ∨ [13, 10].isPrefixOf (w.drop (trimRightWS w).length) = true
  · rw [if_pos hp]
    exact ⟨rfl, iff_of_true rfl hp, fun hne => absurd rfl hne⟩
  · rw [if_neg hp]
    exact ⟨rfl, iff_of_false (Option.some_ne_none _) hp, fun _ => rfl⟩

/-! ### Claim C8 -/

/-- C8: when the scanner meets `=` with two following bytes on the line
that are not both hex digits, it records `invalid hex byte 0x%02x` naming
the first offending byte, emits the literal `=`, and advances only past
the `=`, leaving both offending bytes on the line to be re-scanned;
concretely, strict-decoding `"<div src=\"http://123.456.789.88\">"`
reproduces the input and reports `invalid hex byte 0x22`. -/
theorem c8_invalid_hex_literal_eq :
    (∀ (st : Reader) (c1 c2 : Nat) (rest : List Nat),
      st.line = 61 :: c1 :: c2 :: rest →
      fromHex c1 = none ∨ fromHex c2 = none →
      lineStep st = .emit 61
        { st with gerr := st.gerr.add (.invalidHex (if fromHex c1 = none then c1 else c2)), line := c1 :: c2 :: rest })
    ∧ decodeOut true
        [60, 100, 105, 118, 32, 115, 114, 99, 61, 34, 104, 116, 116, 112, 58, 47, 47,
         49, 50, 51, 46, 52, 53, 54, 46, 55, 56, 57, 46, 56, 56, 34, 62]
        = [60, 100, 105, 118, 32, 115, 114, 99, 61, 34, 104, 116, 116, 112, 58, 47, 47,
           49, 50, 51, 46, 52, 53, 54, 46, 55, 56, 57, 46, 56, 56, 34, 62]
    ∧ decodeErr true
        [60, 100, 105, 118, 32, 115, 114, 99, 61, 34, 104, 116, 116, 112, 58, 47, 47,
         49, 50, 51, 46, 52, 53, 54, 46, 55, 56, 57, 46, 56, 56, 34, 62]
        = some (.invalidHex 34) := by
  refine ⟨?_, by decide, by decide⟩
  intro st c1 c2 rest hline hhex
  unfold lineStep
  rw [hline]
  dsimp only
  rw [if_pos rfl]
  cases hc1 : fromHex c1 with
  | none =>
    have hrhb : readHexByte (c1 :: c2 :: rest) = .error (.invalidHex c1) := by
      unfold readHexByte
      dsimp only
      rw [hc1]
    rw [hrhb]
    dsimp only
    rw [if_neg (by intro hcon; cases hcon.1), if_pos rfl]
  | some v1 =>
    cases hc2 : fromHex c2 with
    | none =>
      have hrhb : readHexByte (c1 :: c2 :: rest) = .error (.invalidHex c2) := by
        unfold readHexByte
        dsimp only
        rw [hc1, hc2]
      rw [hrhb]
      dsimp only
      rw [if_neg (by intro hcon; cases hcon.1),
          if_neg (show ¬ (some v1 = none) from fun hcon => Option.noConfusion hcon)]
    | some v2 =>
      rcases hhex with h | h
      · rw [hc1] at h; cases h
      · rw [hc2] at h; cases h

/-! ### Strict/lenient comparison infrastructure (claim C4) -/

theorem RErr.addUnrecover_recs (g : RErr) (e : Option QPErr) :
    (g.addUnrecover e).recs = g.recs := by
  cases e <;> rfl

theorem RErr.recs_nil_of_add {g : RErr} {e : QPErr}
    (h : (g.add e).recs = []) : g.recs = [] := by
  unfold RErr.add at h
  split_ifs at h
  · exact h
  · exact absurd h (by simp)

theorem prevSet_zero (st : Reader) (v : Nat) : st.prevSet 0 v = { st with p0 := v } := rfl

theorem prevSet_one (st : Reader) (v : Nat) : st.prevSet 1 v = { st with p1 := v } := rfl

theorem prevSet_two (st : Reader) (v : Nat) : st.prevSet 2 v = { st with p2 := v } := rfl

theorem lastFill_strict_eq (st : Reader) : (lastFill st).rd.strict = st.strict := by
  unfold lastFill
  dsimp only
  split_ifs <;> split <;> rfl

theorem lastBlock_strict_eq (st : Reader) : (lastBlock st).rd.strict = st.strict := by
  unfold lastBlock
  dsimp only
  split_ifs <;> first | rfl | exact lastFill_strict_eq st

theorem lineStep_strict_eq (st : Reader) : (lineStep st).rd.strict = st.strict := by
  unfold lineStep
  split
  · rfl
  · rename_i hd tl heq
    by_cases hb : hd = 61
    · rw [if_pos hb]
      split
      · rfl
      · split_ifs <;> rfl
    · rw [if_neg hb]
      split_ifs <;> rfl

theorem lastFill_recs_nil {st : Reader} (h : (lastFill st).rd.gerr.recs = []) :
    st.gerr.recs = [] := by
  unfold lastFill at h
  dsimp only at h
  split_ifs at h <;> split at h <;>
    first
      | simpa [StepRes.rd, Reader.prevSet] using h
      | exact RErr.recs_nil_of_add (by simpa [StepRes.rd, Reader.prevSet] using h)

theorem lastBlock_recs_nil {st : Reader} (h : (lastBlock st).rd.gerr.recs = []) :
    st.gerr.recs = [] := by
  unfold lastBlock at h
  dsimp only at h
  split_ifs at h <;>
    first
      | exact lastFill_recs_nil h
      | simpa [StepRes.rd, Reader.prevSet] using h

theorem lineStep_recs_nil {st : Reader} (h : (lineStep st).rd.gerr.recs = []) :
    st.gerr.recs = [] := by
  unfold lineStep at h
  split at h
  · simpa [StepRes.rd] using h
  · rename_i hd tl heq
    by_cases hb : hd = 61
    · rw [if_pos hb] at h
      split at h
      · simpa [StepRes.rd] using h
      · split_ifs at h <;>
          first
            | simpa [StepRes.rd, Reader.prevSet] using h
            | exact RErr.recs_nil_of_add (by simpa [StepRes.rd, Reader.prevSet] using h)
    · rw [if_neg hb] at h
      split_ifs at h <;>
        first
          | simpa [StepRes.rd] using h
          | exact RErr.recs_nil_of_add (by simpa [StepRes.rd] using h)

theorem ejectLastAux_gerr : ∀ (k : Nat) (st : Reader) (space : Nat) (acc : List Nat),
    (ejectLastAux k st space acc).1.gerr = st.gerr := by
  intro k
  induction k with
  | zero => intro st space acc; rfl
  | succ k ih =>
    intro st space acc
    unfold ejectLastAux
    split_ifs
    · rw [ih]
    · rfl

theorem rfn_of_strict_false {st : Reader} (h : st.strict = false) :
    rfn st = st.gerr.fatal := by
  unfold rfn
  rw [h]
  rfl

theorem rfn_withStrict_true {st : Reader} (h : st.gerr.recs = []) :
    rfn (st.withStrict true) = st.gerr.fatal := by
  unfold rfn Reader.withStrict
  dsimp only
  rw [if_pos rfl]
  unfold RErr.getErr
  rw [h]

theorem withStrict_prevSet (st : Reader) (b : Bool) (i v : Nat) :
    (st.withStrict b).prevSet i v = (st.prevSet i v).withStrict b := by
  unfold Reader.prevSet Reader.withStrict
  split_ifs <;> rfl

theorem withStrict_lastFill (st : Reader) (b : Bool) :
    lastFill (st.withStrict b) = (lastFill st).setStrict b := by
  cases st
  simp only [lastFill, Reader.withStrict, Reader.lastLen, prevSet_one, prevSet_two]
  split_ifs <;> (dsimp only; split <;> rfl)

theorem withStrict_lastBlock (st : Reader) (b : Bool) :
    lastBlock (st.withStrict b) = (lastBlock st).setStrict b := by
  cases st with
  | mk strict src line p0 p1 p2 lo hi g r =>
    simp only [lastBlock, Reader.withStrict, Reader.lastLen, Reader.prevGet,
      prevSet_one]
    split_ifs <;>
      first
        | exact withStrict_lastFill ⟨strict, src, line, p0, p1, p2, lo, hi, g, r⟩ b
        | rfl

theorem withStrict_lineStep (st : Reader) (b : Bool) :
    lineStep (st.withStrict b) = (lineStep st).setStrict b := by
  cases st with
  | mk strict src line p0 p1 p2 lo hi g r =>
    cases line with
    | nil => rfl
    | cons c cs =>
      simp only [lineStep, Reader.withStrict]
      by_cases hc : c = 61
      · rw [if_pos hc, if_pos hc]
        cases hx : readHexByte cs with
        | ok v => rfl
        | error e =>
          dsimp only
          split_ifs <;> rfl
      · rw [if_neg hc, if_neg hc]
        split_ifs <;> rfl

theorem withStrict_ejectLastAux :
    ∀ (k : Nat) (st : Reader) (b : Bool) (space : Nat) (acc : List Nat),
    ejectLastAux k (st.withStrict b) space acc
      = ((ejectLastAux k st space acc).1.withStrict b,
         (ejectLastAux k st space acc).2) := by
  intro k
  induction k with
  | zero => intro st b space acc; rfl
  | succ k ih =>
    intro st b space acc
    unfold ejectLastAux
    dsimp only [Reader.withStrict]
    split_ifs
    · exact ih { st with lastLo := st.lastLo + 1 } b (space - 1)
        (st.prevGet st.lastLo :: acc)
    · rfl

theorem readLoop_recs_nil :
    ∀ (fuel : Nat) (st : Reader) (space : Nat) (acc : List Nat),
    (readLoop fuel st space acc).2.1.gerr.recs = [] → st.gerr.recs = [] := by
  intro fuel
  induction fuel with
  | zero => intro st space acc h; exact h
  | succ fuel ih =>
    intro st space acc h
    by_cases hsp : space = 0
    · simp only [readLoop, if_pos hsp] at h
      exact h
    · by_cases hline : st.line.isEmpty = true
      · cases hr : rfn st with
        | some e =>
          rw [readLoop_step_err e hsp hline hr] at h
          dsimp only at h
          unfold ejectLast at h
          rw [ejectLastAux_gerr] at h
          exact h
        | none =>
          rcases hrs : readSlice st.src with ⟨l, e, rest⟩
          by_cases hbf : e = some .bufferFull
          · subst hbf
            rw [readLoop_step_acquire_bf hsp hline hr hrs] at h
            exact RErr.recs_nil_of_add (ih _ _ _ h)
          · rcases hpl : processLine l with ⟨lp, se⟩
            cases se with
            | none =>
              rw [readLoop_step_acquire hsp hline hr hrs hbf hpl] at h
              have h2 := ih _ _ _ h
              rwa [RErr.addUnrecover_recs] at h2
            | some se =>
              rw [readLoop_step_acquire_sb hsp hline hr hrs hbf hpl] at h
              have h2 := RErr.recs_nil_of_add (ih _ _ _ h)
              rwa [RErr.addUnrecover_recs] at h2
      · have hline2 : st.line.isEmpty = false := by simpa using hline
        cases hlb : lastBlock st with
        | toTop st1 =>
          rw [readLoop_step_last_top hsp hline2 hlb] at h
          apply lastBlock_recs_nil
          rw [hlb]
          exact ih _ _ _ h
        | emit x st1 =>
          rw [readLoop_step_last_emit hsp hline2 hlb] at h
          apply lastBlock_recs_nil
          rw [hlb]
          exact ih _ _ _ h
        | fall st1 =>
          cases hls : lineStep st1 with
          | toTop st2 =>
            rw [readLoop_step_line_top hsp hline2 hlb hls] at h
            apply lastBlock_recs_nil
            rw [hlb]
            show st1.gerr.recs = []
            apply lineStep_recs_nil
            rw [hls]
            exact ih _ _ _ h
          | emit x st2 =>
            rw [readLoop_step_line_emit hsp hline2 hlb hls] at h
            apply lastBlock_recs_nil
            rw [hlb]
            show st1.gerr.recs = []
            apply lineStep_recs_nil
            rw [hls]
            exact ih _ _ _ h
          | fall st2 =>
            simp only [readLoop, hline2, hlb, hls, if_neg hsp,
              Bool.false_eq_true, if_false] at h
            apply lastBlock_recs_nil
            rw [hlb]
            show st1.gerr.recs = []
            apply lineStep_recs_nil
            rw [hls]
            exact h

/-- The `strict` flag influences nothing but the error selector `Fn`:
as long as no recoverable error has been recorded by the end of the run,
a strict `Read` behaves exactly like a lenient one. -/
theorem readLoop_withStrict :
    ∀ (fuel : Nat) (st : Reader) (space : Nat) (acc : List Nat),
    st.strict = false →
    (readLoop fuel st space acc).2.1.gerr.recs = [] →
    readLoop fuel (st.withStrict true) space acc
      = ((readLoop fuel st space acc).1,
         (readLoop fuel st space acc).2.1.withStrict true,
         (readLoop fuel st space acc).2.2) := by
  intro fuel
  induction fuel with
  | zero => intro st space acc hs h; rfl
  | succ fuel ih =>
    intro st space acc hs h
    by_cases hsp : space = 0
    · simp only [readLoop, if_pos hsp]
    · by_cases hline : st.line.isEmpty = true
      · have hrecs0 : st.gerr.recs = [] := readLoop_recs_nil (fuel + 1) st space acc h
        have hlineW : (st.withStrict true).line.isEmpty = true := hline
        cases hf : st.gerr.fatal with
        | some e =>
          have h3 : rfn st = some e := by rw [rfn_of_strict_false hs, hf]
          have h3W : rfn (st.withStrict true) = some e := by
            rw [rfn_withStrict_true hrecs0, hf]
          rw [readLoop_step_err e hsp hlineW h3W,
              readLoop_step_err e hsp hline h3]
          unfold ejectLast
          rw [withStrict_ejectLastAux]
          rfl
        | none =>
          have h3 : rfn st = none := by rw [rfn_of_strict_false hs, hf]
          have h3W : rfn (st.withStrict true) = none := by
            rw [rfn_withStrict_true hrecs0, hf]
          rcases hrs : readSlice st.src with ⟨l, e, rest⟩
          have hrsW : readSlice (st.withStrict true).src = (l, e, rest) := hrs
          by_cases hbf : e = some .bufferFull
          · subst hbf
            rw [readLoop_step_acquire_bf hsp hline h3 hrs] at h
            rw [readLoop_step_acquire_bf hsp hlineW h3W hrsW,
                readLoop_step_acquire_bf hsp hline h3 hrs]
            exact ih { st with src := rest, line := l, rerr := some .bufferFull, gerr := st.gerr.add .bufferFull } space acc hs h
          · rcases hpl : processLine l with ⟨lp, se⟩
            cases se with
            | none =>
              rw [readLoop_step_acquire hsp hline h3 hrs hbf hpl] at h
              rw [readLoop_step_acquire hsp hlineW h3W hrsW hbf hpl,
                  readLoop_step_acquire hsp hline h3 hrs hbf hpl]
              exact ih { st with src := rest, line := lp, rerr := e, gerr := st.gerr.addUnrecover e } space acc hs h
            | some se =>
              rw [readLoop_step_acquire_sb hsp hline h3 hrs hbf hpl] at h
              rw [readLoop_step_acquire_sb hsp hlineW h3W hrsW hbf hpl,
                  readLoop_step_acquire_sb hsp hline h3 hrs hbf hpl]
              exact ih { st with src := rest, line := lp, rerr := some se, gerr := (st.gerr.addUnrecover e).add se } space acc hs h
      · have hline2 : st.line.isEmpty = false := by simpa using hline
        have hlineW : (st.withStrict true).line.isEmpty = false := hline2
        cases hlb : lastBlock st with
        | toTop st1 =>
          have hlbW : lastBlock (st.withStrict true) = .toTop (st1.withStrict true) := by
            simp only [withStrict_lastBlock, hlb, StepRes.setStrict]
          have hs1 : st1.strict = false := by
            have hq := lastBlock_strict_eq st
            rw [hlb] at hq
            exact hq.trans hs
          rw [readLoop_step_last_top hsp hline2 hlb] at h
          rw [readLoop_step_last_top hsp hlineW hlbW,
              readLoop_step_last_top hsp hline2 hlb]
          exact ih st1 space acc hs1 h
        | emit x st1 =>
          have hlbW : lastBlock (st.withStrict true) = .emit x (st1.withStrict true) := by
            simp only [withStrict_lastBlock, hlb, StepRes.setStrict]
          have hs1 : st1.strict = false := by
            have hq := lastBlock_strict_eq st
            rw [hlb] at hq
            exact hq.trans hs
          rw [readLoop_step_last_emit hsp hline2 hlb] at h
          rw [readLoop_step_last_emit hsp hlineW hlbW,
              readLoop_step_last_emit hsp hline2 hlb]
          exact ih st1 (space - 1) (x :: acc) hs1 h
        | fall st1 =>
          have hlbW : lastBlock (st.withStrict true) = .fall (st1.withStrict true) := by
            simp only [withStrict_lastBlock, hlb, StepRes.setStrict]
          have hs1 : st1.strict = false := by
            have hq := lastBlock_strict_eq st
            rw [hlb] at hq
            exact hq.trans hs
          cases hls : lineStep st1 with
          | toTop st2 =>
            have hlsW : lineStep (st1.withStrict true) = .toTop (st2.withStrict true) := by
              simp only [withStrict_lineStep, hls, StepRes.setStrict]
            have hs2 : st2.strict = false := by
              have hq := lineStep_strict_eq st1
              rw [hls] at hq
              exact hq.trans hs1
            rw [readLoop_step_line_top hsp hline2 hlb hls] at h
            rw [readLoop_step_line_top hsp hlineW hlbW hlsW,
                readLoop_step_line_top hsp hline2 hlb hls]
            exact ih st2 space acc hs2 h
          | emit x st2 =>
            have hlsW : lineStep (st1.withStrict true) = .emit x (st2.withStrict true) := by
              simp only [withStrict_lineStep, hls, StepRes.setStrict]
            have hs2 : st2.strict = false := by
              have hq := lineStep_strict_eq st1
              rw [hls] at hq
              exact hq.trans hs1
            rw [readLoop_step_line_emit hsp hline2 hlb hls] at h
            rw [readLoop_step_line_emit hsp hlineW hlbW hlsW,
                readLoop_step_line_emit hsp hline2 hlb hls]
            exact ih st2 (space - 1) (x :: acc) hs2 h
          | fall st2 =>
            have hlsW : lineStep (st1.withStrict true) = .fall (st2.withStrict true) := by
              simp only [withStrict_lineStep, hls, StepRes.setStrict]
            simp only [readLoop, hline2, hlineW, hlb, hlbW, hls, hlsW, if_neg hsp,
              Bool.false_eq_true, if_false]

/-! ### Claim C4 -/

/-- C4 (amended): for every input whose lenient decoding records no
recoverable error, the lenient reader (`NewReader`) and the strict reader
(`NewStrictReader`) emit exactly the same bytes and return the same
error value. -/
theorem c4_no_recoverable_strict_lenient_agree (s : List Nat)
    (h : (decode false s).2.1.gerr.recs = []) :
    decodeOut true s = decodeOut false s ∧ decodeErr true s = decodeErr false s := by
  have hkey := readLoop_withStrict (decodeFuel s) (initReader false s)
    (s.length + 1) [] rfl h
  have hinit : initReader true s = (initReader false s).withStrict true := rfl
  unfold decodeOut decodeErr decode
  rw [hinit, hkey]
  exact ⟨rfl, rfl⟩

/-- Witness for C4 (amended) at the clean input `"hi"`. -/
theorem c4_no_recoverable_strict_lenient_agree_witness :
    (decode false [104, 105]).2.1.gerr.recs = []
    ∧ (decodeOut true [104, 105] = decodeOut false [104, 105]
       ∧ decodeErr true [104, 105] = decodeErr false [104, 105]) :=
  ⟨by decide, c4_no_recoverable_strict_lenient_agree [104, 105] (by decide)⟩

/-- C4 (counterexample): decoding `"foo=\r\r\r \nbar"` records only the
recoverable soft-break error `invalid bytes after =` and ends with a clean
`io.EOF`, yet the strict reader's total output is `"foo"` while the lenient
reader's is `"foobar"`: the strict reader stops emitting at the first
recoverable error, so the two total byte streams differ. -/
theorem c4_strict_truncates_counterexample :
    (decode false [102, 111, 111, 61, 13, 13, 13, 32, 10, 98, 97, 114]).2.1.gerr.recs
        = [.invalidAfterEq [13, 13, 13, 32, 10]]
    ∧ (decode false [102, 111, 111, 61, 13, 13, 13, 32, 10, 98, 97, 114]).2.1.gerr.fatal
        = some .eofErr
    ∧ decodeOut true [102, 111, 111, 61, 13, 13, 13, 32, 10, 98, 97, 114]
        = [102, 111, 111]
    ∧ decodeOut false [102, 111, 111, 61, 13, 13, 13, 32, 10, 98, 97, 114]
        = [102, 111, 111, 98, 97, 114]
    ∧ decodeErr true [102, 111, 111, 61, 13, 13, 13, 32, 10, 98, 97, 114]
        = some (.invalidAfterEq [13, 13, 13, 32, 10])
    ∧ decodeErr false [102, 111, 111, 61, 13, 13, 13, 32, 10, 98, 97, 114]
        = some .eofErr := by
  refine ⟨by decide, by decide, by decide, by decide, by decide, by decide⟩

end QP

namespace QPU

/-- State of `qpUTF8` (`qputf8.go`).  The upstream reader is modelled as
the list `src` of bytes it will still deliver (a read requesting `k`
bytes returns `min k src.length` of them, and `io.EOF` once `src` is
empty).  `own` is the 6-byte assembly buffer (`o0`-`o5`), `buf` holds the
bytes delivered by the most recent upstream read (`buf[i]` for the
current cycle window), and `state` is the `stNormal..stReleaseRestart`
constant (0-6). -/
structure QU where
  src : List Nat
  state : Nat := 0
  pos : Nat := 0
  pco : Nat := 0
  cco : Nat := 0
  o0 : Nat := 0
  o1 : Nat := 0
  o2 : Nat := 0
  o3 : Nat := 0
  o4 : Nat := 0
  o5 : Nat := 0
  pcb : Nat := 0
  ccb : Nat := 0
  buf : List Nat := []
  last : Nat := 0
  err : Option QP.QPErr := none
  deriving DecidableEq, Repr

/-- `q.own[i]` (the Go array has 6 slots; index 5 is the last). -/
def QU.ownGet (q : QU) (i : Nat) : Nat :=
  if i = 0 then q.o0 else if i = 1 then q.o1 else if i = 2 then q.o2
  else if i = 3 then q.o3 else if i = 4 then q.o4 else q.o5

/-- `q.own[i] = v`. -/
def QU.ownSet (q : QU) (i v : Nat) : QU :=
  if i = 0 then { q with o0 := v } else if i = 1 then { q with o1 := v }
  else if i = 2 then { q with o2 := v } else if i = 3 then { q with o3 := v }
  else if i = 4 then { q with o4 := v } else { q with o5 := v }

/-- `b & 0xc0`. -/
def c0mask (b : Nat) : Nat := b &&& 192

/-- The body of the `switch q.state` inside `qpUTF8.cycle`, for one input
byte `b`: returns the updated state and, in the `stNormal` passthrough
branch, the byte to emit.  States `stRelease`/`stReleaseRestart` have no
case in the Go switch, so the byte is silently dropped there. -/
def quSwitch (q : QU) (b : Nat) : QU × Option Nat :=
  match q.state with
  | 0 =>
    if c0mask b = 192 then ({ q with state := 1, o0 := b, pco := 1 }, none)
    else (q, some b)
  | 1 =>
    if c0mask b = 192 then ({ q with last := b, state := 6 }, none)
    else
      let q2 := { q.ownSet q.pco b with pco := q.pco + 1 }
      if b = 13 then ({ q2 with pos := q.pco, state := 2 }, none)
      else if b = 10 then ({ q2 with pos := q.pco, state := 3 }, none)
      else if c0mask b ≠ 128 ∨ 4 ≤ q.pco + 1 then ({ q2 with state := 5 }, none)
      else (q2, none)
  | 2 =>
    if c0mask b = 192 then ({ q with last := b, state := 6 }, none)
    else
      let q2 := { q.ownSet q.pco b with pco := q.pco + 1 }
      if b = 10 then ({ q2 with state := 3 }, none)
      else ({ q2 with state := 5 }, none)
  | 3 =>
    if c0mask b = 192 then ({ q with last := b, state := 6 }, none)
    else if c0mask b = 128 then
      ({ q.ownSet q.pos b with pco := q.pos + 1, state := 4 }, none)
    else ({ q.ownSet q.pco b with pco := q.pco + 1, state := 5 }, none)
  | 4 =>
    if c0mask b = 192 then ({ q with last := b, state := 6 }, none)
    else
      let q2 := { q.ownSet q.pco b with pco := q.pco + 1 }
      if c0mask b ≠ 128 ∨ q.pco + 1 = 6 then ({ q2 with state := 5 }, none)
      else (q2, none)
  | _ => (q, none)

/-- The reset performed when `release` has drained `own`. -/
def quReset (q : QU) (restart : Bool) : QU :=
  if restart then { q with cco := 0, o0 := q.last, pco := 1, state := 1 }
  else { q with cco := 0, pco := 0, state := 0 }

/-- `qpUTF8.release`: drain `own[cco:pco]` into the output (prepended to
`acc`), pausing (`false`) as soon as `count` reaches `max`; on a full
drain, reset and return `true`.  The counter argument is `pco - cco`. -/
def quReleaseAux : Nat → QU → Bool → Nat → Nat → List Nat → QU × Nat × List Nat × Bool
  | 0, q, restart, count, _max, acc => (quReset q restart, count, acc, true)
  | k + 1, q, restart, count, max, acc =>
    if q.cco < q.pco then
      let b := q.ownGet q.cco
      let q1 := { q with cco := q.cco + 1 }
      if max ≤ count + 1 then (q1, count + 1, b :: acc, false)
      else quReleaseAux k q1 restart (count + 1) max (b :: acc)
    else (quReset q restart, count, acc, true)

def quRelease (q : QU) (restart : Bool) (count max : Nat) (acc : List Nat) :
    QU × Nat × List Nat × Bool :=
  quReleaseAux (q.pco - q.cco) q restart count max acc

/-- `qpUTF8.cycle`: process `buf[i:n]`, one byte at a time, pausing when
the output buffer fills (recording `pcb := n`, `ccb := i + 1`). -/
def quCycleAux : Nat → QU → Nat → Nat → Nat → Nat → List Nat → QU × Nat × List Nat × Bool
  | 0, q, _i, _n, _max, count, acc => (q, count, acc, true)
  | k + 1, q, i, n, max, count, acc =>
    if i < n then
      let b := q.buf.getD i 0
      match quSwitch q b with
      | (q1, some x) =>
        if max ≤ count + 1 then
          ({ q1 with pcb := n, ccb := i + 1 }, count + 1, x :: acc, false)
        else quCycleAux k q1 (i + 1) n max (count + 1) (x :: acc)
      | (q1, none) =>
        if q1.state = 6 ∨ q1.state = 5 then
          match quRelease q1 (q1.state == 6) count max acc with
          | (q2, count2, acc2, true) => quCycleAux k q2 (i + 1) n max count2 acc2
          | (q2, count2, acc2, false) =>
            ({ q2 with pcb := n, ccb := i + 1 }, count2, acc2, false)
        else quCycleAux k q1 (i + 1) n max count acc
    else (q, count, acc, true)

/-- One `qpUTF8.Read` with an output buffer of `max` bytes: returns the
emitted bytes, the new state, and the returned error (`none` = `nil`). -/
def quRead (q0 : QU) (max : Nat) : List Nat × QU × Option QP.QPErr :=
  match
    (if q0.ccb < q0.pcb then quCycleAux (q0.pcb - q0.ccb) q0 q0.ccb q0.pcb max 0 []
     else (q0, 0, [], true)) with
  | (q1, count1, acc1, ok1) =>
    if ok1 = false then (acc1.reverse, q1, none)
    else if q1.err ≠ none then
      if q1.state = 4 ∨ (q1.state = 1 ∧ 1 < q1.pco - q1.cco) then
        match quRelease q1 false count1 max acc1 with
        | (q2, _count2, acc2, _ok2) => (acc2.reverse, q2, q1.err)
      else (acc1.reverse, q1, q1.err)
    else
      let allowed := (max - count1) - (q1.pco - q1.cco)
      let n := if 0 < allowed then
          min (if 512 < allowed then 512 else allowed) q1.src.length
        else 0
      let q2 := if 0 < allowed then
          { q1 with buf := q1.src.take n, src := q1.src.drop n,
                    err := if q1.src.isEmpty then some QP.QPErr.eofErr else none }
        else q1
      match quCycleAux n q2 0 n max count1 acc1 with
      | (q3, _count3, acc3, ok3) =>
        if ok3 then
          let q4 := { q3 with pcb := 0, ccb := 0 }
          if q4.pco ≤ q4.cco then (acc3.reverse, q4, q4.err)
          else (acc3.reverse, q4, none)
        else (acc3.reverse, q3, none)

/-- A fresh rejoiner over upstream bytes `s`. -/
def initQU (s : List Nat) : QU := { src := s }

/-- Run a schedule of `Read` calls (one entry per call, the entry being
the size of the output buffer handed to `Read`), collecting all emitted
bytes. -/
def quRun : List Nat → QU → List Nat → List Nat
  | [], _q, out => out
  | max :: rest, q, out =>
    match quRead q max with
    | (bs, q1, _e) => quRun rest q1 (out ++ bs)

/-- All bytes the rejoiner emits for upstream `s` under schedule `sched`. -/
def rejoin (s : List Nat) (sched : List Nat) : List Nat :=
  quRun sched (initQU s) []

/-- `own[c]`, `own[c+1]`, …, `own[c+t-1]`: the slice of the assembly
buffer a drain would emit (`c = cco`, `t = pco - cco`). -/
def ownSegAux (q : QU) : Nat → Nat → List Nat
  | _, 0 => []
  | c, t + 1 => q.ownGet c :: ownSegAux q (c + 1) t

/-- All bytes currently held by the rejoiner that are destined for the
output: the live `own[cco:pco]` window, plus the stashed lead byte
`last` when a restart release is pending. -/
def pend (q : QU) : List Nat :=
  ownSegAux q q.cco (q.pco - q.cco) ++ (if q.state = 6 then [q.last] else [])

/-- The unprocessed tail of the upstream buffer (`buf[ccb:pcb]`). -/
def bufSeg (q : QU) : List Nat := (q.buf.take q.pcb).drop q.ccb

/-! ### Deletion-only infrastructure (claim C3) -/

/-- Well-formedness of the collecting machine, maintained by `cycle`:
buffer bounds plus the per-state discipline of `pos`/`pco`/`cco`. -/
def WFc (q : QU) : Prop :=
  q.cco ≤ q.pco ∧ q.pco ≤ 6
  ∧ (q.state = 0 → q.pco = 0)
  ∧ (q.state = 1 → 1 ≤ q.pco ∧ q.pco ≤ 3 ∧ q.cco = 0)
  ∧ (q.state = 2 → q.pco = q.pos + 1 ∧ q.pos ≤ 3 ∧ q.cco = 0)
  ∧ (q.state = 3 → q.cco = 0 ∧ q.pos < q.pco ∧ q.pco ≤ 5 ∧ q.pos ≤ 3)
  ∧ (q.state = 4 → 1 ≤ q.pco ∧ q.pco ≤ 5 ∧ q.cco = 0)

/-- Well-formedness between `Read` calls: once the upstream error is
recorded the stash window is empty, and while it is not recorded the
cycle discipline holds. -/
def WFr (q : QU) : Prop :=
  q.cco ≤ q.pco ∧ q.pco ≤ 6 ∧ q.pcb ≤ q.buf.length
  ∧ (q.err = none → WFc q) ∧ (q.err ≠ none → q.ccb = q.pcb)

theorem ownGet_ownSet_self (q : QU) (j v : Nat) : (q.ownSet j v).ownGet j = v := by
  unfold QU.ownSet QU.ownGet
  split_ifs <;> rfl

theorem ownGet_ownSet_ne (q : QU) {i j : Nat} (v : Nat) (hi : i ≤ 5) (hj : j ≤ 5)
    (hne : i ≠ j) : (q.ownSet j v).ownGet i = q.ownGet i := by
  unfold QU.ownSet
  split_ifs <;>
    (unfold QU.ownGet; split_ifs <;> first | rfl | omega)

theorem ownGet_update_cco (q : QU) (x i : Nat) :
    ({ q with cco := x } : QU).ownGet i = q.ownGet i := by
  unfold QU.ownGet
  split_ifs <;> rfl

theorem ownSegAux_congr {q1 q2 : QU} (h : ∀ i, q1.ownGet i = q2.ownGet i) :
    ∀ (t c : Nat), ownSegAux q1 c t = ownSegAux q2 c t := by
  intro t
  induction t with
  | zero => intro c; rfl
  | succ t ih =>
    intro c
    unfold ownSegAux
    rw [h c, ih (c + 1)]

theorem ownSegAux_snoc (q : QU) : ∀ (t c : Nat),
    ownSegAux q c (t + 1) = ownSegAux q c t ++ [q.ownGet (c + t)] := by
  intro t
  induction t with
  | zero =>
    intro c
    show q.ownGet c :: ownSegAux q (c + 1) 0 = [] ++ [q.ownGet (c + 0)]
    rw [Nat.add_zero]
    rfl
  | succ t ih =>
    intro c
    show q.ownGet c :: ownSegAux q (c + 1) (t + 1)
        = (q.ownGet c :: ownSegAux q (c + 1) t) ++ [q.ownGet (c + (t + 1))]
    rw [ih (c + 1), List.cons_append]
    rw [show c + 1 + t = c + (t + 1) from by omega]

theorem ownSegAux_ownSet_out (q : QU) {j : Nat} (v : Nat) (hj : j ≤ 5) :
    ∀ (t c : Nat), c + t ≤ j → ownSegAux (q.ownSet j v) c t = ownSegAux q c t := by
  intro t
  induction t with
  | zero => intro c _; rfl
  | succ t ih =>
    intro c hct
    unfold ownSegAux
    rw [ownGet_ownSet_ne q v (by omega) hj (by omega), ih (c + 1) (by omega)]

theorem pend_congr {q1 q2 : QU} (hst : q1.state = q2.state)
    (hc : q1.cco = q2.cco) (hp : q1.pco = q2.pco) (hl : q1.last = q2.last)
    (ho : ∀ i, q1.ownGet i = q2.ownGet i) : pend q1 = pend q2 := by
  unfold pend
  rw [ownSegAux_congr ho]
  simp only [hst, hc, hp, hl]

theorem pend_quReset (q : QU) (restart : Bool) :
    pend (quReset q restart) = if restart then [q.last] else [] := by
  cases restart <;> rfl

theorem pend_head (q : QU) (h : q.cco < q.pco) :
    pend q = q.ownGet q.cco :: pend { q with cco := q.cco + 1 } := by
  unfold pend
  obtain ⟨t, ht⟩ : ∃ t, q.pco - q.cco = t + 1 := ⟨q.pco - q.cco - 1, by omega⟩
  have h2 : ({ q with cco := q.cco + 1 } : QU).pco - ({ q with cco := q.cco + 1 } : QU).cco = t := by
    show q.pco - (q.cco + 1) = t
    omega
  rw [ht, h2, ownSegAux_congr (fun i => ownGet_update_cco q (q.cco + 1) i)]
  rfl

/-- `release` only moves bytes from `own[cco:pco]` (and, on a restart
reset, the stashed `last`) to the front of the output: the multiset
`emitted ++ still-pending` is conserved, and nothing else changes. -/
theorem quReleaseAux_spec :
    ∀ (k : Nat) (q : QU) (restart : Bool) (count max : Nat) (acc : List Nat),
    q.pco - q.cco = k → restart = (q.state == 6) → q.cco ≤ q.pco → q.pco ≤ 6 →
    ∃ q2 count2 acc2 ok,
      quReleaseAux k q restart count max acc = (q2, count2, acc2, ok)
      ∧ acc2.reverse ++ pend q2 = acc.reverse ++ pend q
      ∧ q2.src = q.src ∧ q2.buf = q.buf ∧ q2.err = q.err
      ∧ q2.pcb = q.pcb ∧ q2.ccb = q.ccb
      ∧ q2.cco ≤ q2.pco ∧ q2.pco ≤ 6
      ∧ (ok = true → WFc q2) ∧ (ok = false → q2.state = q.state) := by
  intro k
  induction k with
  | zero =>
    intro q restart count max acc hk hrs hcp hp6
    refine ⟨quReset q restart, count, acc, true, rfl, ?_, ?_, ?_, ?_, ?_, ?_, ?_, ?_,
      fun _ => ?_, fun h => Bool.noConfusion h⟩
    · rw [pend_quReset]
      unfold pend
      rw [hk]
      cases hb : restart with
      | true =>
        have h6 : q.state = 6 := by
          have h := hb ▸ hrs
          simpa using h.symm
        simp [h6, ownSegAux]
      | false =>
        have h6 : ¬ q.state = 6 := by
          intro hc6
          rw [hc6, hb] at hrs
          exact absurd hrs (by decide)
        simp [h6, ownSegAux]
    · cases restart <;> rfl
    · cases restart <;> rfl
    · cases restart <;> rfl
    · cases restart <;> rfl
    · cases restart <;> rfl
    · cases restart <;> exact Nat.zero_le _
    · cases restart with
      | true => show (1 : Nat) ≤ 6; decide
      | false => show (0 : Nat) ≤ 6; decide
    · cases restart <;> simp [WFc, quReset]
  | succ k ih =>
    intro q restart count max acc hk hrs hcp hp6
    have hlt : q.cco < q.pco := by omega
    unfold quReleaseAux
    rw [if_pos hlt]
    by_cases hfull : max ≤ count + 1
    · rw [if_pos hfull]
      refine ⟨_, _, _, false, rfl, ?_, rfl, rfl, rfl, rfl, rfl, ?_, hp6,
        fun h => Bool.noConfusion h, fun _ => rfl⟩
      · rw [pend_head q hlt, List.reverse_cons, List.append_assoc]
        rfl
      · show q.cco + 1 ≤ q.pco
        omega
    · rw [if_neg hfull]
      obtain ⟨q2, count2, acc2, ok, heq, hpend, hsrc, hbuf, herr, hpcb, hccb, hb1, hb2, hwt, hwf⟩ :=
        ih { q with cco := q.cco + 1 } restart (count + 1) max (q.ownGet q.cco :: acc)
          (by show q.pco - (q.cco + 1) = k; omega) (by exact hrs)
          (by show q.cco + 1 ≤ q.pco; omega) hp6
      refine ⟨q2, count2, acc2, ok, heq, ?_, hsrc, hbuf, herr, hpcb, hccb, hb1, hb2, hwt,
        fun h => hwf h⟩
      rw [hpend, List.reverse_cons, List.append_assoc, pend_head q hlt]
      rfl

theorem ownSet_cco (q : QU) (j v : Nat) : (q.ownSet j v).cco = q.cco := by
  unfold QU.ownSet; split_ifs <;> rfl

theorem ownSet_pco (q : QU) (j v : Nat) : (q.ownSet j v).pco = q.pco := by
  unfold QU.ownSet; split_ifs <;> rfl

theorem ownSet_state (q : QU) (j v : Nat) : (q.ownSet j v).state = q.state := by
  unfold QU.ownSet; split_ifs <;> rfl

theorem ownSet_pos (q : QU) (j v : Nat) : (q.ownSet j v).pos = q.pos := by
  unfold QU.ownSet; split_ifs <;> rfl

theorem ownSet_last (q : QU) (j v : Nat) : (q.ownSet j v).last = q.last := by
  unfold QU.ownSet; split_ifs <;> rfl

theorem ownSet_src (q : QU) (j v : Nat) : (q.ownSet j v).src = q.src := by
  unfold QU.ownSet; split_ifs <;> rfl

theorem ownSet_buf (q : QU) (j v : Nat) : (q.ownSet j v).buf = q.buf := by
  unfold QU.ownSet; split_ifs <;> rfl

theorem ownSet_err (q : QU) (j v : Nat) : (q.ownSet j v).err = q.err := by
  unfold QU.ownSet; split_ifs <;> rfl

theorem ownSet_pcb (q : QU) (j v : Nat) : (q.ownSet j v).pcb = q.pcb := by
  unfold QU.ownSet; split_ifs <;> rfl

theorem ownSet_ccb (q : QU) (j v : Nat) : (q.ownSet j v).ccb = q.ccb := by
  unfold QU.ownSet; split_ifs <;> rfl

theorem ownSegAux_mono (q : QU) : ∀ (s t c : Nat), s ≤ t →
    List.Sublist (ownSegAux q c s) (ownSegAux q c t) := by
  intro s
  induction s with
  | zero => intro t c _; exact List.nil_sublist _
  | succ s ih =>
    intro t c hst
    obtain ⟨u, rfl⟩ : ∃ u, t = u + 1 := ⟨t - 1, by omega⟩
    exact List.Sublist.cons₂ _ (ih u (c + 1) (by omega))

theorem ownSegAux_set_snoc (q : QU) (j b : Nat) (hj : j ≤ 5) :
    ownSegAux (q.ownSet j b) 0 (j + 1) = ownSegAux q 0 j ++ [b] := by
  rw [ownSegAux_snoc, ownSegAux_ownSet_out q b hj j 0 (by omega), Nat.zero_add,
      ownGet_ownSet_self]

theorem WFc_mk {q : QU}
    (hb1 : q.cco ≤ q.pco) (hb2 : q.pco ≤ 6)
    (h0 : q.state = 0 → q.pco = 0)
    (h1 : q.state = 1 → 1 ≤ q.pco ∧ q.pco ≤ 3 ∧ q.cco = 0)
    (h2 : q.state = 2 → q.pco = q.pos + 1 ∧ q.pos ≤ 3 ∧ q.cco = 0)
    (h3 : q.state = 3 → q.cco = 0 ∧ q.pos < q.pco ∧ q.pco ≤ 5 ∧ q.pos ≤ 3)
    (h4 : q.state = 4 → 1 ≤ q.pco ∧ q.pco ≤ 5 ∧ q.cco = 0) : WFc q :=
  ⟨hb1, hb2, h0, h1, h2, h3, h4⟩

theorem pend_nil (q : QU) (hpc : q.pco ≤ q.cco) (h6 : ¬ q.state = 6) :
    pend q = [] := by
  unfold pend
  rw [show q.pco - q.cco = 0 from by omega, if_neg h6]
  rfl

theorem pend_eval (q : QU) (h6 : ¬ q.state = 6) (hc : q.cco = 0) :
    pend q = ownSegAux q 0 q.pco := by
  unfold pend
  rw [if_neg h6, List.append_nil, hc, Nat.sub_zero]

theorem pend_stash_gen {q q1 : QU} (b : Nat)
    (ho : ∀ i, q1.ownGet i = q.ownGet i)
    (hst : q1.state = 6) (hl : q1.last = b) (hpco : q1.pco = q.pco)
    (hcco : q1.cco = q.cco) (h6q : ¬ q.state = 6) :
    pend q1 = pend q ++ [b] := by
  unfold pend
  rw [if_pos hst, if_neg h6q, List.append_nil, hl, hpco, hcco,
      ownSegAux_congr ho]

theorem pend_shape_gen {q q1 : QU} (b : Nat)
    (ho : ∀ i, q1.ownGet i = (q.ownSet q.pco b).ownGet i)
    (hpco : q1.pco = q.pco + 1) (hc1 : q1.cco = 0) (hc : q.cco = 0)
    (h6 : ¬ q1.state = 6) (h6q : ¬ q.state = 6) (hp : q.pco ≤ 5) :
    pend q1 = pend q ++ [b] := by
  rw [pend_eval q1 h6 hc1, pend_eval q h6q hc, hpco,
      ownSegAux_congr ho, ownSegAux_set_snoc q q.pco b hp]

theorem pend_excise_gen {q q1 : QU} (b : Nat)
    (ho : ∀ i, q1.ownGet i = (q.ownSet q.pos b).ownGet i)
    (hpco : q1.pco = q.pos + 1) (hc1 : q1.cco = 0) (hc : q.cco = 0)
    (h6 : ¬ q1.state = 6) (h6q : ¬ q.state = 6)
    (hpos : q.pos < q.pco) (hp5 : q.pos ≤ 5) :
    List.Sublist (pend q1) (pend q ++ [b]) := by
  rw [pend_eval q1 h6 hc1, pend_eval q h6q hc, hpco,
      ownSegAux_congr ho, ownSegAux_set_snoc q q.pos b hp5]
  exact (ownSegAux_mono q q.pos q.pco 0 (by omega)).append (List.Sublist.refl [b])

theorem state_ne_six (k : Nat) {q1 : QU} (hst : q1.state = k) (hk : ¬ k = 6) :
    ¬ q1.state = 6 := by
  rw [hst]; exact hk

theorem WFc_state5or6 {q1 : QU} (h5 : q1.state = 5 ∨ q1.state = 6)
    (hb1 : q1.cco ≤ q1.pco) (hb2 : q1.pco ≤ 6) : WFc q1 := by
  refine ⟨hb1, hb2, ?_, ?_, ?_, ?_, ?_⟩ <;>
    · intro hx
      rcases h5 with h | h <;> rw [hx] at h <;> exact absurd h (by decide)

theorem WFc_state0 {q1 : QU} (h : q1.state = 0) (hpc : q1.pco = 0) (hcc : q1.cco = 0) :
    WFc q1 := by
  refine ⟨by omega, by omega, fun _ => hpc, ?_, ?_, ?_, ?_⟩ <;>
    (intro hx; rw [hx] at h; exact absurd h (by decide))

theorem WFc_state1 {q1 : QU} (h : q1.state = 1)
    (hp1 : 1 ≤ q1.pco) (hp3 : q1.pco ≤ 3) (hc : q1.cco = 0) : WFc q1 := by
  refine ⟨by omega, by omega, ?_, fun _ => ⟨hp1, hp3, hc⟩, ?_, ?_, ?_⟩ <;>
    (intro hx; rw [hx] at h; exact absurd h (by decide))

theorem WFc_state2 {q1 : QU} (h : q1.state = 2)
    (hpp : q1.pco = q1.pos + 1) (hpos : q1.pos ≤ 3) (hc : q1.cco = 0) : WFc q1 := by
  refine ⟨by omega, by omega, ?_, ?_, fun _ => ⟨hpp, hpos, hc⟩, ?_, ?_⟩ <;>
    (intro hx; rw [hx] at h; exact absurd h (by decide))

theorem WFc_state3 {q1 : QU} (h : q1.state = 3) (hc : q1.cco = 0)
    (hpos : q1.pos < q1.pco) (hp : q1.pco ≤ 5) (hps : q1.pos ≤ 3) : WFc q1 := by
  refine ⟨by omega, by omega, ?_, ?_, ?_, fun _ => ⟨hc, hpos, hp, hps⟩, ?_⟩ <;>
    (intro hx; rw [hx] at h; exact absurd h (by decide))

theorem WFc_state4 {q1 : QU} (h : q1.state = 4)
    (hp1 : 1 ≤ q1.pco) (hp : q1.pco ≤ 5) (hc : q1.cco = 0) : WFc q1 := by
  refine ⟨by omega, by omega, ?_, ?_, ?_, ?_, fun _ => ⟨hp1, hp, hc⟩⟩ <;>
    (intro hx; rw [hx] at h; exact absurd h (by decide))

/-- One byte through the `cycle` switch: the optional emitted byte
followed by the new pending bytes is a sublist of the old pending bytes
followed by the consumed byte, well-formedness is maintained, and the
read-side bookkeeping (`src`, `buf`, `err`, `pcb`, `ccb`) is untouched. -/
theorem quSwitch_spec (q : QU) (b : Nat) (hwf : WFc q) :
    List.Sublist
      (((quSwitch q b).2.elim [] (fun x => [x])) ++ pend (quSwitch q b).1)
      (pend q ++ [b])
    ∧ WFc (quSwitch q b).1
    ∧ (quSwitch q b).1.src = q.src ∧ (quSwitch q b).1.buf = q.buf
    ∧ (quSwitch q b).1.err = q.err ∧ (quSwitch q b).1.pcb = q.pcb
    ∧ (quSwitch q b).1.ccb = q.ccb := by
  obtain ⟨hb1, hb2, h0, h1, h2, h3, h4⟩ := hwf
  unfold quSwitch
  split <;> rename_i hst
  · -- state 0
    have hp0 := h0 hst
    have hc0 : q.cco = 0 := by omega
    have h6q : ¬ q.state = 6 := state_ne_six 0 hst (by decide)
    have hnil : pend q = [] := pend_nil q (by omega) h6q
    by_cases hm : c0mask b = 192
    · rw [if_pos hm]
      refine ⟨?_, ?_, rfl, rfl, rfl, rfl, rfl⟩
      · show List.Sublist ([] ++ pend { q with state := 1, o0 := b, pco := 1 }) (pend q ++ [b])
        rw [hnil, List.nil_append, List.nil_append]
        rw [pend_eval { q with state := 1, o0 := b, pco := 1 } (state_ne_six 1 rfl (by decide)) hc0]
        exact List.Sublist.refl [b]
      · exact WFc_state1 rfl (by show (1 : Nat) ≤ 1; decide) (by show (1 : Nat) ≤ 3; decide) hc0
    · rw [if_neg hm]
      refine ⟨?_, ⟨hb1, hb2, h0, h1, h2, h3, h4⟩, rfl, rfl, rfl, rfl, rfl⟩
      show List.Sublist ([b] ++ pend q) (pend q ++ [b])
      rw [hnil]
      exact List.Sublist.refl _
  · -- state 1
    have hS := h1 hst
    have hc0 : q.cco = 0 := hS.2.2
    have h6q : ¬ q.state = 6 := state_ne_six 1 hst (by decide)
    by_cases hm : c0mask b = 192
    · rw [if_pos hm]
      refine ⟨?_, WFc_state5or6 (Or.inr rfl) hb1 hb2, rfl, rfl, rfl, rfl, rfl⟩
      show List.Sublist ([] ++ pend { q with last := b, state := 6 }) (pend q ++ [b])
      rw [List.nil_append,
        @pend_stash_gen q { q with last := b, state := 6 } b (fun i => rfl) rfl rfl rfl rfl h6q]
    · rw [if_neg hm]
      have hp5 : q.pco ≤ 5 := by omega
      by_cases hb13 : b = 13
      · rw [if_pos hb13]
        refine ⟨?_, ?_, ownSet_src q q.pco b, ownSet_buf q q.pco b, ownSet_err q q.pco b,
          ownSet_pcb q q.pco b, ownSet_ccb q q.pco b⟩
        · show List.Sublist
            ([] ++ pend { q.ownSet q.pco b with pco := q.pco + 1, pos := q.pco, state := 2 })
            (pend q ++ [b])
          rw [List.nil_append,
            @pend_shape_gen q { q.ownSet q.pco b with pco := q.pco + 1, pos := q.pco, state := 2 }
              b (fun i => rfl) rfl ((ownSet_cco q q.pco b).trans hc0) hc0
              (state_ne_six 2 rfl (by decide)) h6q hp5]
        · exact WFc_state2 rfl rfl hS.2.1 ((ownSet_cco q q.pco b).trans hc0)
      · rw [if_neg hb13]
        by_cases hb10 : b = 10
        · rw [if_pos hb10]
          refine ⟨?_, ?_, ownSet_src q q.pco b, ownSet_buf q q.pco b, ownSet_err q q.pco b,
            ownSet_pcb q q.pco b, ownSet_ccb q q.pco b⟩
          · show List.Sublist
              ([] ++ pend { q.ownSet q.pco b with pco := q.pco + 1, pos := q.pco, state := 3 })
              (pend q ++ [b])
            rw [List.nil_append,
              @pend_shape_gen q { q.ownSet q.pco b with pco := q.pco + 1, pos := q.pco, state := 3 }
                b (fun i => rfl) rfl ((ownSet_cco q q.pco b).trans hc0) hc0
                (state_ne_six 3 rfl (by decide)) h6q hp5]
          · exact WFc_state3 rfl ((ownSet_cco q q.pco b).trans hc0) (by show q.pco < q.pco + 1; omega)
              (by show q.pco + 1 ≤ 5; omega) (by show q.pco ≤ 3; omega)
        · rw [if_neg hb10]
          by_cases hcnd : c0mask b ≠ 128 ∨ 4 ≤ q.pco + 1
          · rw [if_pos hcnd]
            refine ⟨?_, ?_, ownSet_src q q.pco b, ownSet_buf q q.pco b, ownSet_err q q.pco b,
              ownSet_pcb q q.pco b, ownSet_ccb q q.pco b⟩
            · show List.Sublist
                ([] ++ pend { q.ownSet q.pco b with pco := q.pco + 1, state := 5 })
                (pend q ++ [b])
              rw [List.nil_append,
                @pend_shape_gen q { q.ownSet q.pco b with pco := q.pco + 1, state := 5 }
                  b (fun i => rfl) rfl ((ownSet_cco q q.pco b).trans hc0) hc0
                  (state_ne_six 5 rfl (by decide)) h6q hp5]
            · refine WFc_state5or6 (Or.inl rfl) ?_ (by show q.pco + 1 ≤ 6; omega)
              rw [show ({ q.ownSet q.pco b with pco := q.pco + 1, state := 5 } : QU).cco = q.cco
                from ownSet_cco q q.pco b]
              show q.cco ≤ q.pco + 1
              omega
          · rw [if_neg hcnd]
            have hle3 : q.pco + 1 ≤ 3 := by
              by_contra hgt
              exact hcnd (Or.inr (by omega))
            have hstR : ({ q.ownSet q.pco b with pco := q.pco + 1 } : QU).state = 1 :=
              (ownSet_state q q.pco b).trans hst
            refine ⟨?_, ?_, ownSet_src q q.pco b, ownSet_buf q q.pco b, ownSet_err q q.pco b,
              ownSet_pcb q q.pco b, ownSet_ccb q q.pco b⟩
            · show List.Sublist
                ([] ++ pend { q.ownSet q.pco b with pco := q.pco + 1 })
                (pend q ++ [b])
              rw [List.nil_append,
                @pend_shape_gen q { q.ownSet q.pco b with pco := q.pco + 1 }
                  b (fun i => rfl) rfl ((ownSet_cco q q.pco b).trans hc0) hc0
                  (state_ne_six 1 hstR (by decide)) h6q hp5]
            · exact WFc_state1 hstR (by show 1 ≤ q.pco + 1; omega) hle3
                ((ownSet_cco q q.pco b).trans hc0)
  · -- state 2
    have hS := h2 hst
    have hc0 : q.cco = 0 := hS.2.2
    have h6q : ¬ q.state = 6 := state_ne_six 2 hst (by decide)
    have hp5 : q.pco ≤ 5 := by omega
    by_cases hm : c0mask b = 192
    · rw [if_pos hm]
      refine ⟨?_, WFc_state5or6 (Or.inr rfl) hb1 hb2, rfl, rfl, rfl, rfl, rfl⟩
      show List.Sublist ([] ++ pend { q with last := b, state := 6 }) (pend q ++ [b])
      rw [List.nil_append,
        @pend_stash_gen q { q with last := b, state := 6 } b (fun i => rfl) rfl rfl rfl rfl h6q]
    · rw [if_neg hm]
      by_cases hb10 : b = 10
      · rw [if_pos hb10]
        refine ⟨?_, ?_, ownSet_src q q.pco b, ownSet_buf q q.pco b, ownSet_err q q.pco b,
          ownSet_pcb q q.pco b, ownSet_ccb q q.pco b⟩
        · show List.Sublist
            ([] ++ pend { q.ownSet q.pco b with pco := q.pco + 1, state := 3 })
            (pend q ++ [b])
          rw [List.nil_append,
            @pend_shape_gen q { q.ownSet q.pco b with pco := q.pco + 1, state := 3 }
              b (fun i => rfl) rfl ((ownSet_cco q q.pco b).trans hc0) hc0
              (state_ne_six 3 rfl (by decide)) h6q hp5]
        · refine WFc_state3 rfl ((ownSet_cco q q.pco b).trans hc0) ?_ ?_ ?_
          · rw [show ({ q.ownSet q.pco b with pco := q.pco + 1, state := 3 } : QU).pos = q.pos
              from ownSet_pos q q.pco b]
            show q.pos < q.pco + 1
            omega
          · show q.pco + 1 ≤ 5
            omega
          · rw [show ({ q.ownSet q.pco b with pco := q.pco + 1, state := 3 } : QU).pos = q.pos
              from ownSet_pos q q.pco b]
            exact hS.2.1
      · rw [if_neg hb10]
        refine ⟨?_, ?_, ownSet_src q q.pco b, ownSet_buf q q.pco b, ownSet_err q q.pco b,
          ownSet_pcb q q.pco b, ownSet_ccb q q.pco b⟩
        · show List.Sublist
            ([] ++ pend { q.ownSet q.pco b with pco := q.pco + 1, state := 5 })
            (pend q ++ [b])
          rw [List.nil_append,
            @pend_shape_gen q { q.ownSet q.pco b with pco := q.pco + 1, state := 5 }
              b (fun i => rfl) rfl ((ownSet_cco q q.pco b).trans hc0) hc0
              (state_ne_six 5 rfl (by decide)) h6q hp5]
        · refine WFc_state5or6 (Or.inl rfl) ?_ (by show q.pco + 1 ≤ 6; omega)
          rw [show ({ q.ownSet q.pco b with pco := q.pco + 1, state := 5 } : QU).cco = q.cco
            from ownSet_cco q q.pco b]
          show q.cco ≤ q.pco + 1
          omega
  · -- state 3
    have hS := h3 hst
    have hc0 : q.cco = 0 := hS.1
    have h6q : ¬ q.state = 6 := state_ne_six 3 hst (by decide)
    by_cases hm : c0mask b = 192
    · rw [if_pos hm]
      refine ⟨?_, WFc_state5or6 (Or.inr rfl) hb1 hb2, rfl, rfl, rfl, rfl, rfl⟩
      show List.Sublist ([] ++ pend { q with last := b, state := 6 }) (pend q ++ [b])
      rw [List.nil_append,
        @pend_stash_gen q { q with last := b, state := 6 } b (fun i => rfl) rfl rfl rfl rfl h6q]
    · rw [if_neg hm]
      by_cases hm8 : c0mask b = 128
      · rw [if_pos hm8]
        refine ⟨?_, ?_, ownSet_src q q.pos b, ownSet_buf q q.pos b, ownSet_err q q.pos b,
          ownSet_pcb q q.pos b, ownSet_ccb q q.pos b⟩
        · show List.Sublist
            ([] ++ pend { q.ownSet q.pos b with pco := q.pos + 1, state := 4 })
            (pend q ++ [b])
          rw [List.nil_append]
          exact @pend_excise_gen q { q.ownSet q.pos b with pco := q.pos + 1, state := 4 }
            b (fun i => rfl) rfl ((ownSet_cco q q.pos b).trans hc0) hc0
            (state_ne_six 4 rfl (by decide)) h6q hS.2.1 (by omega)
        · exact WFc_state4 rfl (by show 1 ≤ q.pos + 1; omega) (by show q.pos + 1 ≤ 5; omega)
            ((ownSet_cco q q.pos b).trans hc0)
      · rw [if_neg hm8]
        have hp5 : q.pco ≤ 5 := hS.2.2.1
        refine ⟨?_, ?_, ownSet_src q q.pco b, ownSet_buf q q.pco b, ownSet_err q q.pco b,
          ownSet_pcb q q.pco b, ownSet_ccb q q.pco b⟩
        · show List.Sublist
            ([] ++ pend { q.ownSet q.pco b with pco := q.pco + 1, state := 5 })
            (pend q ++ [b])
          rw [List.nil_append,
            @pend_shape_gen q { q.ownSet q.pco b with pco := q.pco + 1, state := 5 }
              b (fun i => rfl) rfl ((ownSet_cco q q.pco b).trans hc0) hc0
              (state_ne_six 5 rfl (by decide)) h6q hp5]
        · refine WFc_state5or6 (Or.inl rfl) ?_ (by show q.pco + 1 ≤ 6; omega)
          rw [show ({ q.ownSet q.pco b with pco := q.pco + 1, state := 5 } : QU).cco = q.cco
            from ownSet_cco q q.pco b]
          show q.cco ≤ q.pco + 1
          omega
  · -- state 4
    have hS := h4 hst
    have hc0 : q.cco = 0 := hS.2.2
    have h6q : ¬ q.state = 6 := state_ne_six 4 hst (by decide)
    have hp5 : q.pco ≤ 5 := hS.2.1
    by_cases hm : c0mask b = 192
    · rw [if_pos hm]
      refine ⟨?_, WFc_state5or6 (Or.inr rfl) hb1 hb2, rfl, rfl, rfl, rfl, rfl⟩
      show List.Sublist ([] ++ pend { q with last := b, state := 6 }) (pend q ++ [b])
      rw [List.nil_append,
        @pend_stash_gen q { q with last := b, state := 6 } b (fun i => rfl) rfl rfl rfl rfl h6q]
    · rw [if_neg hm]
      by_cases hcnd : c0mask b ≠ 128 ∨ q.pco + 1 = 6
      · rw [if_pos hcnd]
        refine ⟨?_, ?_, ownSet_src q q.pco b, ownSet_buf q q.pco b, ownSet_err q q.pco b,
          ownSet_pcb q q.pco b, ownSet_ccb q q.pco b⟩
        · show List.Sublist
            ([] ++ pend { q.ownSet q.pco b with pco := q.pco + 1, state := 5 })
            (pend q ++ [b])
          rw [List.nil_append,
            @pend_shape_gen q { q.ownSet q.pco b with pco := q.pco + 1, state := 5 }
              b (fun i => rfl) rfl ((ownSet_cco q q.pco b).trans hc0) hc0
              (state_ne_six 5 rfl (by decide)) h6q hp5]
        · refine WFc_state5or6 (Or.inl rfl) ?_ (by show q.pco + 1 ≤ 6; omega)
          rw [show ({ q.ownSet q.pco b with pco := q.pco + 1, state := 5 } : QU).cco = q.cco
            from ownSet_cco q q.pco b]
          show q.cco ≤ q.pco + 1
          omega
      · rw [if_neg hcnd]
        have hle5 : q.pco + 1 ≤ 5 := by
          by_contra hgt
          exact hcnd (Or.inr (by omega))
        have hstR : ({ q.ownSet q.pco b with pco := q.pco + 1 } : QU).state = 4 :=
          (ownSet_state q q.pco b).trans hst
        refine ⟨?_, ?_, ownSet_src q q.pco b, ownSet_buf q q.pco b, ownSet_err q q.pco b,
          ownSet_pcb q q.pco b, ownSet_ccb q q.pco b⟩
        · show List.Sublist
            ([] ++ pend { q.ownSet q.pco b with pco := q.pco + 1 })
            (pend q ++ [b])
          rw [List.nil_append,
            @pend_shape_gen q { q.ownSet q.pco b with pco := q.pco + 1 }
              b (fun i => rfl) rfl ((ownSet_cco q q.pco b).trans hc0) hc0
              (state_ne_six 4 hstR (by decide)) h6q hp5]
        · exact WFc_state4 hstR (by show 1 ≤ q.pco + 1; omega) hle5
            ((ownSet_cco q q.pco b).trans hc0)
  · -- catchall: stRelease / stReleaseRestart (byte dropped)
    refine ⟨?_, ⟨hb1, hb2, h0, h1, h2, h3, h4⟩, rfl, rfl, rfl, rfl, rfl⟩
    show List.Sublist ([] ++ pend q) (pend q ++ [b])
    rw [List.nil_append]
    exact List.sublist_append_left _ _

theorem window_cons {l : List Nat} {i n : Nat} (hin : i < n) (hn : n ≤ l.length) :
    (l.take n).drop i = l.getD i 0 :: (l.take n).drop (i + 1) := by
  have hi : i < (l.take n).length := by
    rw [List.length_take]
    omega
  rw [List.drop_eq_getElem_cons hi]
  congr 1
  rw [List.getElem_take]
  exact (List.getD_eq_getElem l 0 (by omega)).symm

theorem window_nil {l : List Nat} {i n : Nat} (hin : n ≤ i) :
    (l.take n).drop i = [] := by
  apply List.drop_eq_nil_of_le
  rw [List.length_take]
  omega

/-- `cycle` over `buf[i:n]`: the emitted bytes plus what is still pending
(in `own`/`last` and, on a pause, the stashed window) form a sublist of
the previously pending bytes followed by the window bytes; the read-side
fields are preserved and well-formedness is maintained. -/
theorem quCycleAux_spec :
    ∀ (fuel : Nat) (q : QU) (i n max count : Nat) (acc : List Nat),
    n - i ≤ fuel → n ≤ q.buf.length → WFc q →
    ∃ q2 count2 acc2 ok,
      quCycleAux fuel q i n max count acc = (q2, count2, acc2, ok)
      ∧ List.Sublist
          (acc2.reverse ++ pend q2 ++ (if ok then [] else bufSeg q2))
          (acc.reverse ++ pend q ++ (q.buf.take n).drop i)
      ∧ q2.src = q.src ∧ q2.buf = q.buf ∧ q2.err = q.err
      ∧ WFc q2
      ∧ (ok = true → q2.pcb = q.pcb ∧ q2.ccb = q.ccb)
      ∧ (ok = false → q2.pcb = n) := by
  intro fuel
  induction fuel with
  | zero =>
    intro q i n max count acc hfi hn hwf
    refine ⟨q, count, acc, true, rfl, ?_, rfl, rfl, rfl, hwf, fun _ => ⟨rfl, rfl⟩,
      fun h => Bool.noConfusion h⟩
    rw [if_pos rfl, List.append_nil, window_nil (by omega), List.append_nil]
  | succ fuel ih =>
    intro q i n max count acc hfi hn hwf
    unfold quCycleAux
    by_cases hin : i < n
    · rw [if_pos hin]
      obtain ⟨hsub, hwf1, hsrc1, hbuf1, herr1, hpcb1, hccb1⟩ :=
        quSwitch_spec q (q.buf.getD i 0) hwf
      rcases hsw : quSwitch q (q.buf.getD i 0) with ⟨q1, eb⟩
      rw [hsw] at hsub hwf1 hsrc1 hbuf1 herr1 hpcb1 hccb1
      dsimp only at hsub hwf1 hsrc1 hbuf1 herr1 hpcb1 hccb1
      have hwin : (q.buf.take n).drop i = q.buf.getD i 0 :: (q.buf.take n).drop (i + 1) :=
        window_cons hin hn
      cases eb with
      | some x =>
        dsimp only [Option.elim] at hsub
        dsimp only
        rw [hsw]
        dsimp only
        by_cases hmax : max ≤ count + 1
        · rw [if_pos hmax]
          refine ⟨_, _, _, false, rfl, ?_, hsrc1, hbuf1, herr1, ?_,
            fun h => Bool.noConfusion h, fun _ => rfl⟩
          · rw [if_neg Bool.false_ne_true]
            have hpe : pend { q1 with pcb := n, ccb := i + 1 } = pend q1 :=
              pend_congr rfl rfl rfl rfl (fun j => rfl)
            have hbs : bufSeg { q1 with pcb := n, ccb := i + 1 } = (q.buf.take n).drop (i + 1) := by
              unfold bufSeg
              rw [show ({ q1 with pcb := n, ccb := i + 1 } : QU).buf = q.buf from hbuf1]
            rw [hpe, hbs, hwin, List.reverse_cons]
            have h1 : List.Sublist (([x] ++ pend q1) ++ (q.buf.take n).drop (i + 1))
                ((pend q ++ [q.buf.getD i 0]) ++ (q.buf.take n).drop (i + 1)) :=
              hsub.append (List.Sublist.refl _)
            have h2 := h1.append_left acc.reverse
            simpa [List.append_assoc] using h2
          · exact hwf1
        · rw [if_neg hmax]
          obtain ⟨q2, count2, acc2, ok, heq, hs2, hsrc2, hbuf2, herr2, hwf2, hmk2, hpk2⟩ :=
            ih q1 (i + 1) n max (count + 1) (x :: acc) (by omega)
              (by rw [hbuf1]; exact hn) hwf1
          refine ⟨q2, count2, acc2, ok, heq, ?_, hsrc2.trans hsrc1, hbuf2.trans hbuf1,
            herr2.trans herr1, hwf2,
            fun h => ⟨(hmk2 h).1.trans hpcb1, (hmk2 h).2.trans hccb1⟩, hpk2⟩
          have hchain : List.Sublist
              ((x :: acc).reverse ++ pend q1 ++ (q1.buf.take n).drop (i + 1))
              (acc.reverse ++ pend q ++ (q.buf.take n).drop i) := by
            rw [hwin, List.reverse_cons, hbuf1]
            have h1 : List.Sublist (([x] ++ pend q1) ++ (q.buf.take n).drop (i + 1))
                ((pend q ++ [q.buf.getD i 0]) ++ (q.buf.take n).drop (i + 1)) :=
              hsub.append (List.Sublist.refl _)
            have h2 := h1.append_left acc.reverse
            simpa [List.append_assoc] using h2
          exact hs2.trans hchain
      | none =>
        dsimp only [Option.elim, List.nil_append] at hsub
        dsimp only
        rw [hsw]
        dsimp only
        by_cases h56 : q1.state = 6 ∨ q1.state = 5
        · rw [if_pos h56]
          obtain ⟨q2, count2, acc2, ok, hreq, hrpend, hrsrc, hrbuf, hrerr, hrpcb, hrccb,
            hrb1, hrb2, hrwt, hrwf⟩ :=
            quReleaseAux_spec (q1.pco - q1.cco) q1 (q1.state == 6) count max acc rfl rfl
              hwf1.1 hwf1.2.1
          have hreq2 : quRelease q1 (q1.state == 6) count max acc = (q2, count2, acc2, ok) := hreq
          rw [hreq2]
          cases ok with
          | true =>
            dsimp only
            obtain ⟨q3, count3, acc3, ok3, heq3, hs3, hsrc3, hbuf3, herr3, hwf3, hmk3, hpk3⟩ :=
              ih q2 (i + 1) n max count2 acc2 (by omega)
                (by rw [hrbuf, hbuf1]; exact hn) (hrwt rfl)
            refine ⟨q3, count3, acc3, ok3, heq3, ?_,
              hsrc3.trans (hrsrc.trans hsrc1), hbuf3.trans (hrbuf.trans hbuf1),
              herr3.trans (hrerr.trans herr1), hwf3,
              fun h => ⟨((hmk3 h).1.trans hrpcb).trans hpcb1,
                        ((hmk3 h).2.trans hrccb).trans hccb1⟩, hpk3⟩
            have hchain : List.Sublist
                (acc2.reverse ++ pend q2 ++ (q2.buf.take n).drop (i + 1))
                (acc.reverse ++ pend q ++ (q.buf.take n).drop i) := by
              rw [hwin, show q2.buf = q.buf from hrbuf.trans hbuf1, hrpend]
              have h1 : List.Sublist ((pend q1) ++ (q.buf.take n).drop (i + 1))
                  ((pend q ++ [q.buf.getD i 0]) ++ (q.buf.take n).drop (i + 1)) :=
                hsub.append (List.Sublist.refl _)
              have h2 := h1.append_left acc.reverse
              simpa [List.append_assoc] using h2
            exact hs3.trans hchain
          | false =>
            dsimp only
            refine ⟨_, _, _, false, rfl, ?_, hrsrc.trans hsrc1, hrbuf.trans hbuf1,
              hrerr.trans herr1, ?_, fun h => Bool.noConfusion h, fun _ => rfl⟩
            · rw [if_neg Bool.false_ne_true]
              have hpe : pend { q2 with pcb := n, ccb := i + 1 } = pend q2 :=
                pend_congr rfl rfl rfl rfl (fun j => rfl)
              have hbs : bufSeg { q2 with pcb := n, ccb := i + 1 }
                  = (q.buf.take n).drop (i + 1) := by
                unfold bufSeg
                rw [show ({ q2 with pcb := n, ccb := i + 1 } : QU).buf = q.buf
                  from hrbuf.trans hbuf1]
              rw [hpe, hbs, hwin, hrpend]
              have h1 : List.Sublist ((pend q1) ++ (q.buf.take n).drop (i + 1))
                  ((pend q ++ [q.buf.getD i 0]) ++ (q.buf.take n).drop (i + 1)) :=
                hsub.append (List.Sublist.refl _)
              have h2 := h1.append_left acc.reverse
              simpa [List.append_assoc] using h2
            · have hst2 : q2.state = q1.state := hrwf rfl
              refine WFc_state5or6 ?_ hrb1 hrb2
              show ({ q2 with pcb := n, ccb := i + 1 } : QU).state = 5
                ∨ ({ q2 with pcb := n, ccb := i + 1 } : QU).state = 6
              rcases h56 with h | h
              · exact Or.inr (hst2.trans h)
              · exact Or.inl (hst2.trans h)
        · rw [if_neg h56]
          obtain ⟨q2, count2, acc2, ok, heq, hs2, hsrc2, hbuf2, herr2, hwf2, hmk2, hpk2⟩ :=
            ih q1 (i + 1) n max count acc (by omega) (by rw [hbuf1]; exact hn) hwf1
          refine ⟨q2, count2, acc2, ok, heq, ?_, hsrc2.trans hsrc1, hbuf2.trans hbuf1,
            herr2.trans herr1, hwf2,
            fun h => ⟨(hmk2 h).1.trans hpcb1, (hmk2 h).2.trans hccb1⟩, hpk2⟩
          have hchain : List.Sublist
              (acc.reverse ++ pend q1 ++ (q1.buf.take n).drop (i + 1))
              (acc.reverse ++ pend q ++ (q.buf.take n).drop i) := by
            rw [hwin, hbuf1]
            have h1 : List.Sublist ((pend q1) ++ (q.buf.take n).drop (i + 1))
                ((pend q ++ [q.buf.getD i 0]) ++ (q.buf.take n).drop (i + 1)) :=
              hsub.append (List.Sublist.refl _)
            have h2 := h1.append_left acc.reverse
            simpa [List.append_assoc] using h2
          exact hs2.trans hchain
    · rw [if_neg hin]
      refine ⟨q, count, acc, true, rfl, ?_, rfl, rfl, rfl, hwf, fun _ => ⟨rfl, rfl⟩,
        fun h => Bool.noConfusion h⟩
      rw [if_pos rfl, List.append_nil, window_nil (by omega), List.append_nil]

/-! ### Claim C5 -/

/-- C5: in state `st0x0A` (a buffered UTF-8 candidate followed by `\n` or
`\r\n`, whose first end-of-line byte sits at `own[pos]`), a continuation
byte `b` (`b & 0xc0 == 0x80`) overwrites `own[pos]` and truncates the
buffer to `pos + 1` (entering `st0x10XXXXXX`), so the line break is
excised and the continuation byte takes its place; a new lead byte
(`b & 0xc0 == 0xc0`) stashes `b` and schedules a restart release of the
unchanged buffer, and any other byte is appended and the whole buffer
(line break included) is released unchanged.  Concretely
`C3 0A A9` and `C3 0D 0A A9` rejoin to `C3 A9`, while `C3 0A 41`
passes through unchanged. -/
theorem c5_lf_excision :
    (∀ (q : QU) (b : Nat), q.state = 3 → c0mask b = 128 →
      quSwitch q b = ({ q.ownSet q.pos b with pco := q.pos + 1, state := 4 }, none))
    ∧ (∀ (q : QU) (b : Nat), q.state = 3 → c0mask b = 192 →
      quSwitch q b = ({ q with last := b, state := 6 }, none))
    ∧ (∀ (q : QU) (b : Nat), q.state = 3 → c0mask b ≠ 192 → c0mask b ≠ 128 →
      quSwitch q b = ({ q.ownSet q.pco b with pco := q.pco + 1, state := 5 }, none))
    ∧ rejoin [195, 10, 169] [512, 512, 512] = [195, 169]
    ∧ rejoin [195, 13, 10, 169] [512, 512, 512] = [195, 169]
    ∧ rejoin [195, 10, 65] [512] = [195, 10, 65] := by
  refine ⟨?_, ?_, ?_, by decide, by decide, by decide⟩
  · intro q b h3 hm
    unfold quSwitch
    split <;> rename_i hst
    · rw [h3] at hst; cases hst
    · rw [h3] at hst; cases hst
    · rw [h3] at hst; cases hst
    · rw [if_neg (by rw [hm]; decide), if_pos hm]
    · rw [h3] at hst; cases hst
    · rename_i hx
      exact absurd h3 hx
  · intro q b h3 hm
    unfold quSwitch
    split <;> rename_i hst
    · rw [h3] at hst; cases hst
    · rw [h3] at hst; cases hst
    · rw [h3] at hst; cases hst
    · rw [if_pos hm]
    · rw [h3] at hst; cases hst
    · rename_i hx
      exact absurd h3 hx
  · intro q b h3 hm1 hm2
    unfold quSwitch
    split <;> rename_i hst
    · rw [h3] at hst; cases hst
    · rw [h3] at hst; cases hst
    · rw [h3] at hst; cases hst
    · rw [if_neg hm1, if_neg hm2]
    · rw [h3] at hst; cases hst
    · rename_i hx
      exact absurd h3 hx

/-- Witness for C5 at a concrete `st0x0A` state (`own = C3 0A`, `pos = 1`)
receiving the continuation byte `0xA9`. -/
theorem c5_lf_excision_witness :
    ({ src := [], state := 3, pos := 1, pco := 2, o0 := 195, o1 := 10 } : QU).state = 3
    ∧ c0mask 169 = 128
    ∧ quSwitch { src := [], state := 3, pos := 1, pco := 2, o0 := 195, o1 := 10 } 169
        = ({ src := [], state := 4, pos := 1, pco := 2, o0 := 195, o1 := 169 }, none) :=
  ⟨rfl, by decide,
    c5_lf_excision.1 { src := [], state := 3, pos := 1, pco := 2, o0 := 195, o1 := 10 }
      169 rfl (by decide)⟩

/-! ### Claim C3 (counterexample) -/

/-- C3 (counterexample): the claim promises that every byte other than
`\n`, `\r` and control bytes survives rejoining.  A lone UTF-8 lead byte
`0xC3` at end of stream is lost: in state `stStart` with a single
accumulated byte, the error path refuses to drain (`pco - cco > 1`
fails), so `rejoin [0xC3]` emits nothing.  A second loss: after a release
pauses exactly when the output buffer fills, the next processed byte
finds the machine still in `stRelease`, where the `switch` has no case:
`rejoin [0xC3, Z, W]` with 2-byte reads drops the printable `W`. -/
theorem c3_lead_byte_lost_counterexample :
    rejoin [195] [4, 4, 4] = []
    ∧ 195 ∈ [195]
    ∧ (195 ≠ 10 ∧ 195 ≠ 13 ∧ ¬ 195 < 32)
    ∧ rejoin [195, 90, 87] [2, 2, 2, 2, 2] = [195, 90]
    ∧ (87 ≠ 10 ∧ 87 ≠ 13 ∧ ¬ 87 < 32 ∧ 87 ∈ [195, 90, 87] ∧ ¬ 87 ∈ [195, 90]) := by
  decide

end QPU
